import Mathlib

/-!
Verification development for an eBay-to-Shopify import service.

The service consists of three TypeScript modules:
  * `lib/map.ts` — the schema reconciler: maps an eBay single item or item
    group into a Shopify product/variant/media payload;
  * `lib/ebay.ts` + `app/api/import/route.ts` — identifier extraction and the
    listing-resolution fallback chain, plus the per-URL import orchestrator
    with its bounded in-memory history;
  * `lib/shopify.ts` — GraphQL call wrappers (network behaviour treated as an
    opaque collaborator; only their pure short-circuits are modelled).

The definitions below are a shallow embedding of that code.  JavaScript
strings are modelled as Lean `String` (the code only manipulates ASCII-ish
text, with explicit char-list models of `trim`/`toLowerCase`/`split`/`join`),
`undefined`/missing fields as `Option`, JS exceptions as `Except String`, and
remote calls as explicit collaborator functions passed in a record.
-/

/-! ### JavaScript-semantics helpers -/

/-- Model of `String.prototype.trim` (the code only trims ASCII whitespace). -/
def trimChars (l : List Char) : List Char :=
  ((l.dropWhile Char.isWhitespace).reverse.dropWhile Char.isWhitespace).reverse

/-- JS `s.trim()`. -/
def jsTrim (s : String) : String :=
  String.mk (trimChars s.data)

/-- JS `s.toLowerCase()` (ASCII fragment). -/
def jsToLower (s : String) : String :=
  String.mk (s.data.map Char.toLower)

/-- JS `Array.prototype.join(sep)`. -/
def jsJoin (sep : String) : List String → String
  | [] => ""
  | x :: xs => xs.foldl (fun acc s => acc ++ sep ++ s) x

/-- Splitting a character list at every occurrence of `sep`. -/
def splitChar (sep : Char) : List Char → List (List Char)
  | [] => [[]]
  | c :: cs =>
    match splitChar sep cs with
    | [] => [[]]
    | g :: gs => if c = sep then [] :: g :: gs else (c :: g) :: gs

/-- JS `s.split(sep)` for a one-character separator. -/
def jsSplit (s : String) (sep : Char) : List String :=
  (splitChar sep s.data).map String.mk

/-- Truthiness of an optional JS string: `undefined` and `""` are falsy. -/
def truthy : Option String → Bool
  | none => false
  | some s => s ≠ ""

/-- JS `a || b` on optional strings: returns `a` when truthy, else `b`. -/
def jsOrS (a b : Option String) : Option String :=
  if truthy a then a else b

/-- JS `a || d` where `d` is a (truthy) string literal. -/
def jsOrD (a : Option String) (d : String) : String :=
  match a with
  | some s => if s = "" then d else s
  | none => d

/-- JS `a || b` on optional arrays: any array (even `[]`) is truthy. -/
def jsOrArr {α : Type} (a b : Option (List α)) : Option (List α) :=
  match a with
  | some l => some l
  | none => b

/-- JS `.filter(Boolean)` over a list of optional strings: keeps the truthy
entries (present and non-empty). -/
def jsCompactStr (l : List (Option String)) : List String :=
  (l.filterMap id).filter (fun s => s ≠ "")

/-- Insertion-ordered deduplication, as performed by `new Set(list)` /
`Array.from(new Set(...))` in JS: the first occurrence of each element is kept,
in order. -/
def dedupFirstAux {α : Type} [DecidableEq α] : List α → List α → List α
  | [], _ => []
  | x :: xs, seen =>
    if x ∈ seen then dedupFirstAux xs seen
    else x :: dedupFirstAux xs (x :: seen)

/-- `dedupFirst l` keeps the first occurrence of each element of `l`. -/
def dedupFirst {α : Type} [DecidableEq α] (l : List α) : List α :=
  dedupFirstAux l []

/-- JS `Map.prototype.set` on an association list: replaces the binding when
the key is present, appends it otherwise (JS `Map` preserves insertion
order). -/
def mapSet {β : Type} (m : List (String × β)) (k : String) (v : β) :
    List (String × β) :=
  if (m.find? (fun p => p.1 = k)).isSome then
    m.map (fun p => if p.1 = k then (k, v) else p)
  else m ++ [(k, v)]

/-- JS `Map.prototype.get` on an association list. -/
def mapGet {β : Type} (m : List (String × β)) (k : String) : Option β :=
  (m.find? (fun p => p.1 = k)).map (·.2)

/-- Keep the first occurrence of each key `f x`, in order — the generic
"first occurrence wins" pattern. -/
def firstOccurrencesAux {α β : Type} [DecidableEq β] (f : α → β) :
    List α → List β → List α
  | [], _ => []
  | x :: xs, seen =>
    if f x ∈ seen then firstOccurrencesAux f xs seen
    else x :: firstOccurrencesAux f xs (f x :: seen)

/-- `firstOccurrences f l` keeps exactly the elements of `l` whose key `f x`
has not occurred earlier in `l`. -/
def firstOccurrences {α β : Type} [DecidableEq β] (f : α → β) (l : List α) :
    List α :=
  firstOccurrencesAux f l []

/-! ### Data model of eBay payloads (`lib/map.ts`, `route.ts`)

The eBay browse API returns untyped JSON (`EbayItem = any` in the source); the
structures below list exactly the fields the code reads, each optional.
Aspect values can be strings, arrays of strings, or `null`. -/

/-- Value of an eBay aspect: `null`, a string, or an array of strings
(the code stringifies other primitives; the string cases cover the fields the
reconciler reads). -/
inductive AspectVal where
  | nullV : AspectVal
  | strV : String → AspectVal
  | arrV : List String → AspectVal
deriving DecidableEq

structure EbayAspect where
  name : Option String := none
  value : AspectVal := .nullV
deriving DecidableEq

structure EbayImage where
  imageUrl : Option String := none
deriving DecidableEq

structure EbayPrice where
  value : Option String := none
  currency : Option String := none
deriving DecidableEq

structure EbayItem where
  title : Option String := none
  description : Option String := none
  shortDescription : Option String := none
  localizedAspects : Option (List EbayAspect) := none
  additionalAspects : Option (List EbayAspect) := none
  categoryPath : Option String := none
  image : Option EbayImage := none
  additionalImages : Option (List EbayImage) := none
  price : Option EbayPrice := none
  mpn : Option String := none
  epid : Option String := none
  legacyItemId : Option String := none
  itemId : Option String := none
  itemGroupType : Option String := none
  itemGroupId : Option String := none
deriving DecidableEq

structure CommonDescription where
  description : Option String := none
deriving DecidableEq

/-- Raw eBay item-group response (fields read by `normalizeGroupResponse`,
`collectEbayItems` and `mapEbayItemGroup`).  `some l` models a field present
as an array (possibly empty); `none` models an absent / non-array field. -/
structure GroupData where
  items : Option (List EbayItem) := none
  itemSummaries : Option (List EbayItem) := none
  itemSummariesV2 : Option (List EbayItem) := none
  title : Option String := none
  description : Option String := none
  commonDescriptions : Option (List CommonDescription) := none
deriving DecidableEq

/-! ### Canonical product model (input of `buildShopifyProductInputFromEbay`) -/

structure CanonicalVariant where
  sku : Option String := none
  price : String := ""
  currencyCode : String := ""
  options : List (String × String) := []
  imageUrl : Option String := none
  imageUrls : Option (List String) := none
deriving DecidableEq

structure CanonicalProduct where
  title : String := ""
  description : Option String := none
  imageUrls : List String := []
  tags : List String := []
  vendor : Option String := none
  variants : List CanonicalVariant := []
  optionsOrder : List String := []
deriving DecidableEq

/-! ### Shopify payload model (output of `buildShopifyProductInputFromEbay`) -/

structure ProductOptionValue where
  name : String
deriving DecidableEq

structure ProductOption where
  name : String
  position : Nat
  values : List ProductOptionValue
deriving DecidableEq

inductive ProductStatus where
  | ACTIVE
  | DRAFT
deriving DecidableEq

structure ProductInput where
  title : String
  descriptionHtml : Option String := none
  vendor : Option String := none
  tags : Option (List String) := none
  status : ProductStatus
  productOptions : Option (List ProductOption) := none
deriving DecidableEq

structure VariantOptionValue where
  optionName : Option String := none
  name : Option String := none
deriving DecidableEq

inductive InventoryPolicy where
  | DENY
  | CONTINUE
deriving DecidableEq

structure InventoryItem where
  sku : Option String := none
deriving DecidableEq

structure VariantInput where
  price : Option String := none
  inventoryPolicy : Option InventoryPolicy := none
  inventoryItem : Option InventoryItem := none
  optionValues : Option (List VariantOptionValue) := none
  mediaSrc : Option (List String) := none
deriving DecidableEq

structure VariantAsset where
  key : String
  imageUrls : List String
deriving DecidableEq

structure PayloadMeta where
  droppedVariants : Nat
deriving DecidableEq

structure ShopifyProductPayload where
  productInput : ProductInput
  variantInputs : List VariantInput
  variantAssets : List VariantAsset
  meta : Option PayloadMeta := none
deriving DecidableEq

/-! ### `lib/map.ts` -/

def DEFAULT_OPTION_NAME : String := "Title"

def DEFAULT_OPTION_VALUE : String := "Default Title"

def MAX_SHOPIFY_VARIANTS : Nat := 100

def fallbackOptionValue (optionName : String) : String :=
  if optionName = DEFAULT_OPTION_NAME then DEFAULT_OPTION_VALUE else "Default"

/-- `getAspect(item, name)`: looks the named aspect up case-insensitively in
`localizedAspects || additionalAspects` and stringifies its value
(JS `Array.prototype.toString` joins with `","`; `null?.toString()` is
`undefined`). -/
def getAspect (item : EbayItem) (name : String) : Option String :=
  match jsOrArr item.localizedAspects item.additionalAspects with
  | none => none
  | some a =>
    match a.find? (fun x => jsToLower (x.name.getD "") = jsToLower name) with
    | none => none
    | some found =>
      match found.value with
      | .nullV => none
      | .strV s => some s
      | .arrV l => some (jsJoin "," l)

/-- `normalizeKeyPart`: `(value || "").trim().toLowerCase()`. -/
def normalizeKeyPart (value : Option String) : String :=
  jsToLower (jsTrim (value.getD ""))

/-- `buildVariantKey(optionValues, sku?)`: joins
`name=value` parts (name defaulting to `"Title"` when falsy), with an
optional trailing `sku=` part when the SKU is truthy. -/
def buildVariantKey (optionValues : List VariantOptionValue)
    (sku : Option String) : String :=
  let parts := optionValues.map (fun opt =>
    normalizeKeyPart (jsOrS opt.optionName (some DEFAULT_OPTION_NAME)) ++ "=" ++
      normalizeKeyPart opt.name)
  let parts :=
    if truthy sku then parts ++ ["sku=" ++ normalizeKeyPart sku] else parts
  jsJoin "|" parts

/-- JS record lookup `variant.options[name]` on the option map. -/
def jsLookup (m : List (String × String)) (k : String) : Option String :=
  (m.find? (fun p => p.1 = k)).map (·.2)

/-- The `inferredOptions` computation of `buildShopifyProductInputFromEbay`:
one option descriptor per axis of `optionsOrder`, with the deduplicated truthy
values observed across variants (falling back to a default value when none). -/
def inferredOptions (sg : CanonicalProduct) : List ProductOption :=
  sg.optionsOrder.enum.map (fun p =>
    let name := p.2
    let values := dedupFirst
      ((sg.variants.filterMap (fun v => jsLookup v.options name)).filter
        (fun s => s ≠ ""))
    let values := if values = [] then [fallbackOptionValue name] else values
    { name := name, position := p.1 + 1,
      values := values.map (fun v => { name := v }) })

/-- `hasDefinedOptions`: whether any option axes were inferred. -/
def hasDefinedOptions (sg : CanonicalProduct) : Bool :=
  (inferredOptions sg).length > 0

/-- The `productOptions` of the payload: the inferred axes, or a single
synthetic `Title`/`Default Title` axis when there are none. -/
def productOptionsOf (sg : CanonicalProduct) : List ProductOption :=
  if hasDefinedOptions sg then inferredOptions sg
  else [{ name := DEFAULT_OPTION_NAME, position := 1,
          values := [{ name := DEFAULT_OPTION_VALUE }] }]

/-- The per-variant `optionValues`: one entry per product-level axis (own
value, or the axis fallback via `??`), or the synthetic default pair when no
axes are defined. -/
def mkOptionValues (sg : CanonicalProduct) (v : CanonicalVariant) :
    List VariantOptionValue :=
  if hasDefinedOptions sg then
    (productOptionsOf sg).map (fun o =>
      { optionName := some o.name,
        name := some ((jsLookup v.options o.name).getD
          (fallbackOptionValue o.name)) })
  else [{ optionName := some DEFAULT_OPTION_NAME,
          name := some DEFAULT_OPTION_VALUE }]

/-- The per-variant deduplicated image list:
`new Set([...(variant.imageUrls || []), variant.imageUrl].filter(Boolean))`. -/
def imageSourcesOf (v : CanonicalVariant) : List String :=
  dedupFirst (((v.imageUrls.getD []) ++ v.imageUrl.toList).filter
    (fun s => s ≠ ""))

structure RawVariantPayload where
  key : String
  imageUrls : List String
  input : VariantInput
deriving DecidableEq

/-- The variant payload pushed onto `rawVariantPayloads` for one canonical
variant. -/
def mkRawVariantPayload (sg : CanonicalProduct) (v : CanonicalVariant) :
    RawVariantPayload :=
  let optionValues := mkOptionValues sg v
  let imageSources := imageSourcesOf v
  { key := buildVariantKey optionValues v.sku
    imageUrls := imageSources
    input :=
      { price := some v.price
        inventoryPolicy := some .DENY
        inventoryItem := some { sku := v.sku }
        optionValues := some optionValues
        mediaSrc := imageSources.head?.map (fun u => [u]) } }

/-- The `forEach` loop building `rawVariantPayloads`, threading the
`seenVariantKeys` set: a variant whose key was already seen is skipped. -/
def rawVariantPayloadsAux (sg : CanonicalProduct) :
    List CanonicalVariant → List String → List RawVariantPayload
  | [], _ => []
  | v :: vs, seen =>
    let p := mkRawVariantPayload sg v
    if p.key ∈ seen then rawVariantPayloadsAux sg vs seen
    else p :: rawVariantPayloadsAux sg vs (p.key :: seen)

/-- The full deduplicated variant payload list (before the 100-variant cap). -/
def rawVariantPayloads (sg : CanonicalProduct) : List RawVariantPayload :=
  rawVariantPayloadsAux sg sg.variants []

/-- `buildShopifyProductInputFromEbay`. -/
def buildShopifyProductInputFromEbay (sg : CanonicalProduct) :
    ShopifyProductPayload :=
  let uniqueTags := dedupFirst ((sg.tags.map jsTrim).filter
    (fun s => s ≠ ""))
  let raw := rawVariantPayloads sg
  let kept := raw.take MAX_SHOPIFY_VARIANTS
  let droppedVariants := raw.length - kept.length
  { productInput :=
      { title := sg.title
        descriptionHtml := some (jsOrD sg.description "")
        vendor := if truthy sg.vendor then sg.vendor else none
        tags := some uniqueTags
        status := .ACTIVE
        productOptions := some (productOptionsOf sg) }
    variantInputs := kept.map (·.input)
    variantAssets := kept.map (fun v => { key := v.key, imageUrls := v.imageUrls })
    meta := if droppedVariants > 0 then some { droppedVariants } else none }

/-- `mapEbaySingleItem`.  `Date.now()` (used only in the synthetic SKU
fallback) is modelled by the explicit `nowMs` parameter; an absent upstream
title is modelled as `""`. -/
def mapEbaySingleItem (nowMs : Nat) (item : EbayItem) : CanonicalProduct :=
  let title := item.title.getD ""
  let description := jsOrD (jsOrS item.description item.shortDescription) ""
  let vendor := getAspect item "Brand"
  let tags :=
    (if truthy item.categoryPath then
      ((jsSplit (item.categoryPath.getD "") (Char.ofNat 47)).map jsTrim).filter
        (fun s => s ≠ "")
     else []) ++
    (match vendor with
     | some v => if v ≠ "" then [v] else []
     | none => [])
  let imageUrls := dedupFirst (jsCompactStr
    ((item.image.bind (·.imageUrl)) ::
      (item.additionalImages.getD []).map (·.imageUrl)))
  let price := (item.price.bind (·.value)).getD "0.00"
  let currencyCode := (item.price.bind (·.currency)).getD "USD"
  let sku := jsOrD
    (jsOrS item.mpn (jsOrS item.epid (jsOrS item.legacyItemId item.itemId)))
    ("EBAY-" ++ toString nowMs)
  { title := title
    description := some description
    vendor := vendor
    tags := tags
    imageUrls := imageUrls
    variants := [{ sku := some sku, price := price,
                   currencyCode := currencyCode, options := [],
                   imageUrl := imageUrls.head?, imageUrls := some imageUrls }]
    optionsOrder := [] }

/-- `collectEbayItems`: the first of `items`/`itemSummaries`/`itemSummariesV2`
that is a non-empty array, else `[]`. -/
def collectEbayItems (group : GroupData) : List EbayItem :=
  match group.items with
  | some (x :: xs) => x :: xs
  | _ =>
    match group.itemSummaries with
    | some (x :: xs) => x :: xs
    | _ =>
      match group.itemSummariesV2 with
      | some (x :: xs) => x :: xs
      | _ => []

/-- `normAspectValue`: trims strings, joins array entries with `" / "`,
returns `undefined` for `null` / blank results. -/
def normAspectValue : AspectVal → Option String
  | .nullV => none
  | .strV s => let t := jsTrim s; if t = "" then none else some t
  | .arrV l =>
    let joined := jsJoin " / " ((l.map jsTrim).filter
      (fun s => s ≠ ""))
    if joined = "" then none else some joined

/-- One entry of the `aspectMeta` map of `mapEbayItemGroup`.  The source keys
the JS `Map` by the lower-cased trimmed name; the key is carried here as a
field so the map can be an insertion-ordered list. -/
structure AspectMeta where
  key : String
  originalName : String
  values : List String
  order : Nat
deriving DecidableEq

/-- The `addAspect` closure of `mapEbayItemGroup`: skips falsy names/values,
creates a map entry keyed by the lower-cased trimmed name on first sight
(recording the first-seen spelling and order), and adds the normalized value
to the entry's value set. -/
def addAspect (metas : List AspectMeta) (counter : Nat)
    (nameRaw : Option String) (valueRaw : AspectVal) :
    List AspectMeta × Nat :=
  match nameRaw with
  | none => (metas, counter)
  | some n =>
    let name := jsTrim n
    match normAspectValue valueRaw with
    | none => (metas, counter)
    | some value =>
      if name = "" then (metas, counter)
      else
        let key := jsToLower name
        if metas.any (fun m => m.key = key) then
          (metas.map (fun m =>
            if m.key = key then
              { m with values :=
                  if value ∈ m.values then m.values else m.values ++ [value] }
            else m), counter)
        else
          (metas ++ [{ key := key, originalName := name, values := [value],
                       order := counter }], counter + 1)

/-- The aspect stream fed to `addAspect`: for each item, in order,
`[...localizedAspects, ...additionalAspects]` (missing fields as `[]`). -/
def aspectStream (items : List EbayItem) : List EbayAspect :=
  items.flatMap (fun it =>
    (it.localizedAspects.getD []) ++ (it.additionalAspects.getD []))

/-- The aggregated `aspectMeta` map (as an insertion-ordered list) after
processing every aspect of every item. -/
def aggregateAspects (items : List EbayItem) : List AspectMeta :=
  ((aspectStream items).foldl
    (fun acc a => addAspect acc.1 acc.2 a.name a.value)
    (([] : List AspectMeta), 0)).1

/-- The deny-list of descriptive-but-non-purchasing aspect names. -/
def denyList : List String :=
  ["brand", "model", "type", "unit type", "unit quantity", "features",
   "style", "connectivity", "contract", "lock status", "operating system"]

/-- The comparator of the `optionNames` sort, as a relation: value-cardinality
descending, ties broken by first-seen order ascending. -/
def aspectLe (a b : AspectMeta) : Prop :=
  b.values.length < a.values.length ∨
    (a.values.length = b.values.length ∧ a.order ≤ b.order)

instance : DecidableRel aspectLe := fun a b =>
  inferInstanceAs (Decidable (_ ∨ _))

instance : IsTotal AspectMeta aspectLe :=
  ⟨fun a b => by unfold aspectLe; omega⟩

instance : IsTrans AspectMeta aspectLe :=
  ⟨fun a b c hab hbc => by unfold aspectLe at *; omega⟩

/-- The three eligibility filters applied to the aggregated aspects before
sorting: varying (cardinality > 1), bounded name length / value cardinality,
not on the deny-list. -/
def eligibleAspects (metas : List AspectMeta) : List AspectMeta :=
  ((metas.filter (fun meta => decide (meta.values.length > 1))).filter
      (fun meta => decide (meta.originalName.length ≤ 30 ∧
        meta.values.length ≤ 50))).filter
    (fun meta => !(decide (jsToLower meta.originalName ∈ denyList)))

/-- The selected option axis names for a group: eligible aggregated aspects,
sorted by the comparator, truncated to 3, mapped to their first-seen
spelling. -/
def optionNamesOf (items : List EbayItem) : List String :=
  (((eligibleAspects (aggregateAspects items)).insertionSort aspectLe).take
    3).map (·.originalName)

/-- The option map of one group member: for each selected axis name, the
normalized value of the member's matching aspect (matched case-insensitively
on the trimmed name), omitted when absent. -/
def memberOptions (optionNames : List String) (it : EbayItem) :
    List (String × String) :=
  optionNames.filterMap (fun name =>
    match ((it.localizedAspects.getD []) ++
        (it.additionalAspects.getD [])).find?
        (fun a => jsToLower (jsTrim (a.name.getD "")) = jsToLower name) with
    | none => none
    | some fromAspect =>
      (normAspectValue fromAspect.value).map (fun v => (name, v)))

/-- The image candidate list of one group member:
`[it.image?.imageUrl, ...additionalImages.map(x => x.imageUrl)].filter(Boolean)`. -/
def memberImageCandidates (it : EbayItem) : List String :=
  jsCompactStr ((it.image.bind (·.imageUrl)) ::
    (it.additionalImages.getD []).map (·.imageUrl))

/-- `mapEbayItemGroup`: throws when the group has no member items, otherwise
builds the canonical product (title/description/vendor/tags from the group or
its first member, option axes from the aggregated aspects, one canonical
variant per member). -/
def mapEbayItemGroup (group : GroupData) : Except String CanonicalProduct :=
  match collectEbayItems group with
  | [] => .error "eBay group payload missing items"
  | first :: restItems =>
    let items := first :: restItems
    let title := jsOrD (jsOrS group.title first.title) "Imported from eBay"
    let description := jsOrD
      (jsOrS group.description
        (jsOrS first.description
          ((group.commonDescriptions.bind (·.head?)).bind (·.description)))) ""
    let vendor := getAspect first "Brand"
    let tags :=
      (if truthy first.categoryPath then
        ((jsSplit (first.categoryPath.getD "") (Char.ofNat 47)).map jsTrim).filter
          (fun s => s ≠ "")
       else []) ++
      (match vendor with
       | some v => if v ≠ "" then [v] else []
       | none => [])
    let optionNames := optionNamesOf items
    let variants := items.map (fun it =>
      { sku := jsOrS it.mpn (jsOrS it.epid (jsOrS it.legacyItemId it.itemId))
        price := ((it.price.bind (·.value)).orElse
          (fun _ => first.price.bind (·.value))).getD "0.00"
        currencyCode := ((it.price.bind (·.currency)).orElse
          (fun _ => first.price.bind (·.currency))).getD "USD"
        options := memberOptions optionNames it
        imageUrl := (memberImageCandidates it).head?
        imageUrls := some (memberImageCandidates it) : CanonicalVariant })
    let imageUrls := dedupFirst (items.flatMap memberImageCandidates)
    .ok { title := title
          description := some description
          vendor := vendor
          tags := tags
          imageUrls := imageUrls
          variants := variants
          optionsOrder := optionNames }

/-! ### `lib/ebay.ts` — identifier extraction -/

/-- Scanner for the prefix `"://"` of an absolute URL: returns the characters
after the first occurrence. -/
def afterSchemeSep : List Char → Option (List Char)
  | ':' :: '/' :: '/' :: rest => some rest
  | _ :: rest => afterSchemeSep rest
  | [] => none

/-- Model of `new URL(url).pathname` for the well-formed absolute URLs this
service handles (`scheme://authority/path[?query][#fragment]`): the substring
from the first `/` after the authority up to `?` or `#`, `"/"` when the path
is absent.  A string with no `"://"` (or starting with `:`) is malformed and
the constructor throws, modelled as `none`. -/
def pathnameOf (url : String) : Option String :=
  match url.data with
  | [] => none
  | c :: cs =>
    if c = ':' then none
    else
      match afterSchemeSep (c :: cs) with
      | none => none
      | some rest =>
        let rest := rest.dropWhile (fun ch => !(ch = '/' ∨ ch = '?' ∨ ch = '#'))
        let path := rest.takeWhile (fun ch => !(ch = '?' ∨ ch = '#'))
        some (String.mk (if path = [] then ['/'] else path))

/-- The maximal trailing digit run of a character list. -/
def trailingDigitRun (l : List Char) : List Char :=
  (l.reverse.takeWhile Char.isDigit).reverse

/-- Model of matching `/(\d{9,})$/` against a string: the maximal trailing
digit run, when at least 9 long. -/
def matchTrailingDigits (s : String) : Option String :=
  let run := trailingDigitRun s.data
  if 9 ≤ run.length then some (String.mk run) else none

/-- Model of matching `/\/itm\/(\d{9,})/`: leftmost `"/itm/"` followed by at
least 9 digits; captures the maximal digit run after it. -/
def matchItmSegment : List Char → Option String
  | [] => none
  | c :: rest =>
    if (c :: rest).take 5 = "/itm/".data then
      let run := ((c :: rest).drop 5).takeWhile Char.isDigit
      if 9 ≤ run.length then some (String.mk run) else matchItmSegment rest
    else matchItmSegment rest

/-- `parseNumericTail(url)`: the long digit run at the end of the pathname,
else the digits of an `/itm/<digits>` segment, else `null` (also for a
malformed URL). -/
def parseNumericTail (url : String) : Option String :=
  match pathnameOf url with
  | none => none
  | some p =>
    match matchTrailingDigits p with
    | some tail => some tail
    | none => matchItmSegment p.data

/-- Model of matching `/item_group_id=(\d{6,})/`: leftmost occurrence of
`"item_group_id="` followed by at least 6 digits. -/
def matchGroupId : List Char → Option String
  | [] => none
  | c :: rest =>
    if (c :: rest).take 14 = "item_group_id=".data then
      let run := ((c :: rest).drop 14).takeWhile Char.isDigit
      if 6 ≤ run.length then some (String.mk run) else matchGroupId rest
    else matchGroupId rest

/-- `parseGroupIdFromErrorText(text)`. -/
def parseGroupIdFromErrorText (text : String) : Option String :=
  matchGroupId text.data

/-- Result of `ebayExtractListingIdentifiers` (HTML scraping). -/
structure ListingIdentifiers where
  itemId : Option String := none
  itemGroupId : Option String := none
  legacyItemId : Option String := none
deriving DecidableEq

/-! ### `app/api/import/route.ts` — resolver and orchestrator -/

inductive ImportStatus where
  | created
  | updated
  | failed
deriving DecidableEq

structure ImportResult where
  sourceUrl : String
  legacyItemId : Option String := none
  productId : Option String := none
  handle : Option String := none
  title : Option String := none
  variants : Option Nat := none
  status : ImportStatus
  error : Option String := none
  shopifyUrl : Option String := none
deriving DecidableEq

/-- Product returned by the `productCreate` mutation. -/
structure CreatedProduct where
  id : Option String := none
  handle : Option String := none
  title : Option String := none
deriving DecidableEq

/-- Media returned by the `productCreateMedia` mutation. -/
structure CreatedMedia where
  id : Option String := none
deriving DecidableEq

structure SelectedOption where
  name : Option String := none
  value : Option String := none
deriving DecidableEq

/-- Variant returned by the `productVariantsBulkCreate` mutation. -/
structure CreatedVariant where
  id : Option String := none
  sku : Option String := none
  selectedOptions : Option (List SelectedOption) := none
deriving DecidableEq

structure MediaInput where
  originalSource : String
  alt : String
  mediaContentType : String := "IMAGE"
deriving DecidableEq

structure VariantMediaInput where
  variantId : Option String
  mediaIds : List String
deriving DecidableEq

/-- The remote collaborators (eBay browse API, HTML scrape, Shopify GraphQL),
modelled as functions: a call either returns structured data or raises a
message (`Except`).  `shopEnv` models `process.env.SHOPIFY_SHOP` and `nowMs`
models `Date.now()`. -/
structure Collaborators where
  getItemByLegacyId : String → Except String EbayItem
  getItem : String → Except String EbayItem
  getItemGroup : String → Except String GroupData
  getItemsByItemGroup : String → Except String GroupData
  extractListingIdentifiers : String → Except String (Option ListingIdentifiers)
  productCreate : ProductInput → Except String CreatedProduct
  productCreateMedia : Option String → List MediaInput →
    Except String (List CreatedMedia)
  productVariantsBulkCreate : Option String → List VariantInput →
    Except String (List CreatedVariant)
  productVariantAppendMedia : Option String → List VariantMediaInput →
    Except String (List CreatedVariant)
  shopEnv : String
  nowMs : Nat

/-- `lib/shopify.ts` `productVariantsBulkCreate`: returns `[]` without calling
the API when there are no variants. -/
def callVariantsBulkCreate (o : Collaborators) (productId : Option String)
    (variants : List VariantInput) : Except String (List CreatedVariant) :=
  if variants = [] then .ok [] else o.productVariantsBulkCreate productId variants

/-- `lib/shopify.ts` `productVariantAppendMedia`: returns `[]` without calling
the API when there are no associations. -/
def callVariantAppendMedia (o : Collaborators) (productId : Option String)
    (variantMedia : List VariantMediaInput) :
    Except String (List CreatedVariant) :=
  if variantMedia = [] then .ok []
  else o.productVariantAppendMedia productId variantMedia

/-- `normalizeGroupResponse`: takes the first of
`items`/`itemSummaries`/`itemSummariesV2` that is an array (`Array.isArray`,
regardless of emptiness, `[]` when none is), and backfills `title` /
`description` from the first item of that list when the group-level field is
falsy. -/
def normalizeGroupResponse (data : GroupData) : GroupData :=
  let items :=
    match data.items with
    | some l => l
    | none =>
      match data.itemSummaries with
      | some l => l
      | none =>
        match data.itemSummariesV2 with
        | some l => l
        | none => []
  let first := items.headD {}
  { data with items := some items,
              title := jsOrS data.title first.title,
              description := jsOrS data.description first.description }

/-- A resolved listing: either a single item or a (normalized or raw) group
payload — the dynamic `itemOrGroup` value of the route. -/
inductive ResolvedPayload where
  | item : EbayItem → ResolvedPayload
  | group : GroupData → ResolvedPayload
deriving DecidableEq

/-- The mutable state of the recovery sequence: the resolved cell, the
`isGroup` flag, the ordered diagnostic notes, the three dedup sets and the
cached scrape result (`none` = not scraped yet; `some none` = scraped, no
identifiers / scrape failed). -/
structure ResolveState where
  itemOrGroup : Option ResolvedPayload
  isGroup : Bool
  notes : List String
  attemptedGroupIds : List String
  attemptedLegacyIds : List String
  attemptedItemIds : List String
  scraped : Option (Option ListingIdentifiers)

/-- One labelled endpoint attempt inside `tryGroupId` (skipped when already
resolved); on success stores the normalized group and sets `isGroup`. -/
def groupAttempt (label id : String) (res : Except String GroupData)
    (st : ResolveState) : ResolveState :=
  if st.itemOrGroup.isSome then st
  else
    match res with
    | .ok raw =>
      { st with itemOrGroup := some (.group (normalizeGroupResponse raw)),
                isGroup := true,
                notes := st.notes ++ [label ++ "(" ++ id ++ "): success"] }
    | .error e =>
      { st with notes := st.notes ++ [label ++ "(" ++ id ++ "): " ++ e] }

/-- The `tryGroupId` closure: skips falsy / already-resolved / already-tried
ids, then tries the group-detail endpoint and the items-by-group endpoint in
that order. -/
def tryGroupId (o : Collaborators) (id : Option String) (st : ResolveState) :
    ResolveState :=
  if !truthy id ∨ st.itemOrGroup.isSome then st
  else
    let idv := id.getD ""
    if idv ∈ st.attemptedGroupIds then st
    else
      let st := { st with attemptedGroupIds := st.attemptedGroupIds ++ [idv] }
      let st := groupAttempt "item_group" idv (o.getItemGroup idv) st
      groupAttempt "get_items_by_item_group" idv (o.getItemsByItemGroup idv) st

/-- The `tryLegacyId` closure. -/
def tryLegacyId (o : Collaborators) (id : Option String) (st : ResolveState) :
    ResolveState :=
  if !truthy id ∨ st.itemOrGroup.isSome then st
  else
    let idv := id.getD ""
    if idv ∈ st.attemptedLegacyIds then st
    else
      let st := { st with attemptedLegacyIds := st.attemptedLegacyIds ++ [idv] }
      match o.getItemByLegacyId idv with
      | .ok item =>
        { st with itemOrGroup := some (.item item),
                  notes := st.notes ++ ["legacy(" ++ idv ++ "): success"] }
      | .error e =>
        { st with notes := st.notes ++ ["legacy(" ++ idv ++ "): " ++ e] }

/-- The `tryItemId` closure (direct item fetch; forces `isGroup` to false on
success). -/
def tryItemId (o : Collaborators) (id : Option String) (st : ResolveState) :
    ResolveState :=
  if !truthy id ∨ st.itemOrGroup.isSome then st
  else
    let idv := id.getD ""
    if idv ∈ st.attemptedItemIds then st
    else
      let st := { st with attemptedItemIds := st.attemptedItemIds ++ [idv] }
      match o.getItem idv with
      | .ok item =>
        { st with itemOrGroup := some (.item item), isGroup := false,
                  notes := st.notes ++ ["item(" ++ idv ++ "): success"] }
      | .error e =>
        { st with notes := st.notes ++ ["item(" ++ idv ++ "): " ++ e] }

/-- The `ensureScraped` closure: scrapes the page once, caching the result and
noting a failed / empty scrape. -/
def ensureScraped (o : Collaborators) (sourceUrl : String)
    (st : ResolveState) : ResolveState :=
  match st.scraped with
  | some _ => st
  | none =>
    match o.extractListingIdentifiers sourceUrl with
    | .ok (some ids) => { st with scraped := some (some ids) }
    | .ok none =>
      { st with scraped := some none,
                notes := st.notes ++ ["scrape: no identifiers found in HTML"] }
    | .error e =>
      { st with scraped := some none,
                notes := st.notes ++ ["scrape: " ++ e] }

/-- The recovery sequence entered when the initial legacy lookup failed with
message `msg`: hinted group id from the error text, the numeric tail as a
group id, scrape-assisted legacy/group retries, then direct item fetches over
the deduplicated candidate ids. -/
def recoverResolve (o : Collaborators) (sourceUrl numeric msg : String) :
    ResolveState :=
  let st : ResolveState :=
    { itemOrGroup := none, isGroup := false,
      notes := ["legacy(" ++ numeric ++ "): " ++ msg],
      attemptedGroupIds := [], attemptedLegacyIds := [numeric],
      attemptedItemIds := [], scraped := none }
  let st := tryGroupId o (parseGroupIdFromErrorText msg) st
  let st := tryGroupId o (some numeric) st
  let st :=
    if st.itemOrGroup.isNone then
      let st := ensureScraped o sourceUrl st
      let scraped := st.scraped.getD none
      let st :=
        match scraped with
        | some ids =>
          if truthy ids.legacyItemId ∧ ids.legacyItemId ≠ some numeric then
            tryLegacyId o ids.legacyItemId st
          else st
        | none => st
      match scraped with
      | some ids =>
        if st.itemOrGroup.isNone ∧ truthy ids.itemGroupId ∧
            ids.itemGroupId ≠ some numeric then
          tryGroupId o ids.itemGroupId st
        else st
      | none => st
    else st
  if st.itemOrGroup.isNone then
    let scraped := st.scraped.getD none
    let candidateItemIds := dedupFirst (jsCompactStr
      [scraped.bind (·.itemId),
       (match scraped with
        | some ids =>
          if truthy ids.legacyItemId then
            some ("v1|" ++ ids.legacyItemId.getD "" ++ "|0")
          else none
        | none => none),
       some ("v1|" ++ numeric ++ "|0"),
       some numeric])
    candidateItemIds.foldl (fun st c => tryItemId o (some c) st) st
  else st

/-- The full resolution step of the route: try the numeric tail as a legacy
id; on failure run the recovery sequence; if nothing resolved, throw the
`Unable to fetch` error carrying the joined diagnostic notes. -/
def resolveListing (o : Collaborators) (sourceUrl numeric : String) :
    Except String (ResolvedPayload × Bool) :=
  match o.getItemByLegacyId numeric with
  | .ok item => .ok (.item item, false)
  | .error msg =>
    let st := recoverResolve o sourceUrl numeric msg
    match st.itemOrGroup with
    | some p => .ok (p, st.isGroup)
    | none =>
      .error ("Unable to fetch eBay data for " ++ sourceUrl ++
        " after multiple attempts:\n" ++ jsJoin "\n" st.notes)

/-- The payload-mapping step after resolution: a group payload goes through
`mapEbayItemGroup`; a single item that declares group membership causes a
group re-fetch (preferred over the single view); otherwise
`mapEbaySingleItem`.  (The route branches on the `isGroup` flag, which is set
exactly when the resolved cell holds a group payload.) -/
def resolvedToCanonical (o : Collaborators) (p : ResolvedPayload) :
    Except String CanonicalProduct :=
  match p with
  | .group g => mapEbayItemGroup g
  | .item it =>
    if truthy it.itemGroupType ∧ truthy it.itemGroupId then
      match o.getItemGroup (it.itemGroupId.getD "") with
      | .error e => .error e
      | .ok g => mapEbayItemGroup g
    else .ok (mapEbaySingleItem o.nowMs it)

/-- `created.id?.split("/").pop()` interpolated into the admin URL
(`undefined` renders as the string `"undefined"`). -/
def productIdTail : Option String → String
  | some s => (jsSplit s (Char.ofNat 47)).getLastD ""
  | none => "undefined"

/-- The ordered deduplicated image list of the media-upload step: each
variant's first image, then the product-level images, truthy entries only. -/
def orderedImagesOf (pay : ShopifyProductPayload)
    (canonical : CanonicalProduct) : List String :=
  dedupFirst (((pay.variantAssets.filterMap (fun a => a.imageUrls.head?)) ++
    canonical.imageUrls).filter (fun u => u ≠ ""))

/-- The `mediaIdByUrl` map: for each index into `mediaInputs`, when the
created media at the same index exists and has a truthy id (and the input a
truthy source URL), map the source URL to the media id. -/
def buildMediaMap (inputs : List MediaInput) (created : List CreatedMedia) :
    List (String × String) :=
  inputs.enum.foldl (fun m p =>
    match created[p.1]? with
    | some media =>
      match media.id with
      | some mid =>
        if mid ≠ "" ∧ p.2.originalSource ≠ "" then
          mapSet m p.2.originalSource mid
        else m
      | none => m
    | none => m) []

/-- The variant→media association payload: for each created variant,
reconstruct its variant key from the returned option selections and SKU, look
up that key's image URLs, translate them to media ids, and keep the non-empty
associations. -/
def buildVariantMediaPayload (createdVariants : List CreatedVariant)
    (variantAssetMap : List (String × List String))
    (mediaIdByUrl : List (String × String)) : List VariantMediaInput :=
  createdVariants.foldl (fun acc variant =>
    let optionValues := (variant.selectedOptions.getD []).map
      (fun opt => { optionName := opt.name, name := opt.value :
        VariantOptionValue })
    let key := buildVariantKey optionValues variant.sku
    let candidateUrls := (mapGet variantAssetMap key).getD []
    let mediaIds := candidateUrls.foldl (fun ids url =>
      match mapGet mediaIdByUrl url with
      | some mid => if mid ≠ "" ∧ mid ∉ ids then ids ++ [mid] else ids
      | none => ids) []
    if mediaIds ≠ [] then acc ++ [{ variantId := variant.id, mediaIds }]
    else acc) []

/-- The body of the per-URL `try` block of the route's POST handler, threading
the progressively mutated result record `r`; a thrown error carries the value
of `r` at the moment of the throw.  Returns the final `r` just before the
`r.status = "created"` assignment. -/
def importBody (o : Collaborators) (r0 : ImportResult) :
    Except (ImportResult × String) ImportResult :=
  match parseNumericTail r0.sourceUrl with
  | none => .error (r0, "Cannot parse numeric id from URL")
  | some numeric =>
  let r := { r0 with legacyItemId := some numeric }
  match resolveListing o r.sourceUrl numeric with
  | .error e => .error (r, e)
  | .ok (payload, _isGroup) =>
  match resolvedToCanonical o payload with
  | .error e => .error (r, e)
  | .ok canonical =>
  let pay := buildShopifyProductInputFromEbay canonical
  match o.productCreate pay.productInput with
  | .error e => .error (r, e)
  | .ok created =>
  let r := { r with productId := created.id, handle := created.handle,
                    title := created.title }
  let orderedImages := orderedImagesOf pay canonical
  let mediaInputs := (orderedImages.take 100).enum.map (fun p =>
    { originalSource := p.2,
      alt := pay.productInput.title ++ " (Image " ++ toString (p.1 + 1) ++ ")" :
      MediaInput })
  match (if mediaInputs = [] then Except.ok []
         else o.productCreateMedia created.id mediaInputs) with
  | .error e => .error (r, e)
  | .ok createdMedia =>
  let mediaIdByUrl := buildMediaMap mediaInputs createdMedia
  match callVariantsBulkCreate o created.id pay.variantInputs with
  | .error e => .error (r, e)
  | .ok createdVariants =>
  let r := { r with variants := some createdVariants.length,
                    shopifyUrl := some ("https://" ++ o.shopEnv ++
                      "/admin/products/" ++ productIdTail created.id) }
  let variantAssetMap := pay.variantAssets.foldl
    (fun m a => mapSet m a.key a.imageUrls) []
  let variantMediaPayload :=
    buildVariantMediaPayload createdVariants variantAssetMap mediaIdByUrl
  match callVariantAppendMedia o created.id variantMediaPayload with
  | .error e => .error (r, e)
  | .ok _ =>
  let r :=
    match pay.meta with
    | some m =>
      if m.droppedVariants > 0 then
        let warning := "Skipped " ++ toString m.droppedVariants ++
          " variants due to Shopify 100 variant limit"
        let combined :=
          match r.error with
          | some e => if e ≠ "" then e ++ "\n" ++ warning else warning
          | none => warning
        { r with error := some combined }
      else r
    | none => r
  .ok r

/-- One full per-URL import: the `try`/`catch` around `importBody` — success
sets `status = created`, a caught failure sets `status = failed` and stores
the error message on the result as mutated so far. -/
def importOne (o : Collaborators) (url : String) : ImportResult :=
  match importBody o { sourceUrl := url, status := .failed } with
  | .ok r => { r with status := .created }
  | .error (r, e) => { r with error := some e, status := .failed }

/-- `importedCache.unshift(r); if (length > 50) pop()`: newest first, bounded
at 50 by evicting the oldest. -/
def pushBounded (cache : List ImportResult) (r : ImportResult) :
    List ImportResult :=
  let c := r :: cache
  if c.length > 50 then c.dropLast else c

/-- The per-URL loop of the POST handler: accumulates the response results in
order and pushes every result (success or failure) onto the bounded history. -/
def runImportLoop (o : Collaborators) (urls : List String)
    (cache : List ImportResult) : List ImportResult × List ImportResult :=
  urls.foldl (fun acc url =>
    let r := importOne o url
    (acc.1 ++ [r], pushBounded acc.2 r)) (([] : List ImportResult), cache)

/-- The POST handler (after JSON transport): filters falsy URLs, answers the
`Missing url/urls` error when none remain, otherwise runs the loop; returns
the response and the new history. -/
def postImport (o : Collaborators) (rawUrls : List String)
    (cache : List ImportResult) :
    Except String (List ImportResult) × List ImportResult :=
  let urls := rawUrls.filter (fun u => u ≠ "")
  if urls = [] then (.error "Missing url/urls", cache)
  else
    let res := runImportLoop o urls cache
    (.ok res.1, res.2)

/-! ### Concrete inputs used by the claim witnesses -/

/-- A canonical product with 150 variants whose single-axis option values are
pairwise distinct (so all 150 survive deduplication). -/
def c1Input : CanonicalProduct :=
  { title := "T", optionsOrder := ["N"],
    variants := (List.range 150).map (fun i =>
      { options := [("N", toString i)], price := "1.00",
        currencyCode := "USD" }) }

/-- A one-variant canonical product with variant-level images. -/
def c10Input : CanonicalProduct :=
  { title := "T",
    variants := [{ sku := some "S", price := "1", currencyCode := "USD",
                   imageUrl := some "u1",
                   imageUrls := some ["u2", "u1", "u2"] }] }

/-- Two optional strings are equal up to letter case and leading/trailing
whitespace: both absent, or both present with equal trimmed lower-casings. -/
def caseWsEquiv (a b : Option String) : Prop :=
  (a = none ∧ b = none) ∨
  (∃ x y, a = some x ∧ b = some y ∧ jsToLower (jsTrim x) = jsToLower (jsTrim y))

/-- The claim that `buildVariantKey` is invariant under changing letter case
and adding/removing surrounding whitespace in option names, option values and
SKU, stated as written (componentwise case/whitespace equivalence only). -/
def buildVariantKeyInsensitivityClaim : Prop :=
  ∀ (l l2 : List VariantOptionValue) (s s2 : Option String),
    l.length = l2.length →
    (∀ i (hi : i < l.length) (hi2 : i < l2.length),
      caseWsEquiv (l.get ⟨i, hi⟩).optionName (l2.get ⟨i, hi2⟩).optionName ∧
      caseWsEquiv (l.get ⟨i, hi⟩).name (l2.get ⟨i, hi2⟩).name) →
    caseWsEquiv s s2 →
    buildVariantKey l s = buildVariantKey l2 s2

/-- The trailing path segment of a pathname: the characters after the last
slash. -/
def lastSegmentChars (p : String) : List Char :=
  (p.data.reverse.takeWhile (fun c => c ≠ Char.ofNat 47)).reverse

/-- The claim that `parseNumericTail` returns the trailing all-digit path
segment when it has at least 9 digits, and `none` for every URL without such
a segment — stated as written (no fallback). -/
def parseNumericTailNoneClaim : Prop :=
  ∀ url p, pathnameOf url = some p →
    ¬(9 ≤ (lastSegmentChars p).length ∧
      (lastSegmentChars p).all Char.isDigit = true) →
    parseNumericTail url = none

/-- The first of the three item-array fields of a group response that is
present as an array (the `Array.isArray` cascade of `normalizeGroupResponse`),
regardless of emptiness. -/
def firstArrayItems (d : GroupData) : List EbayItem :=
  match d.items with
  | some l => l
  | none =>
    match d.itemSummaries with
    | some l => l
    | none =>
      match d.itemSummariesV2 with
      | some l => l
      | none => []

/-- The claim that `normalizeGroupResponse` takes its `items` from whichever
of the three item-array field names is populated (read: non-empty — the
`collectEbayItems` cascade) and backfills `title`/`description` from the first
item of that list when the group-level field is absent — stated as written. -/
def normalizeGroupClaim : Prop :=
  ∀ d : GroupData,
    (normalizeGroupResponse d).items = some (collectEbayItems d) ∧
    (normalizeGroupResponse d).title =
      (if d.title.isSome then d.title
       else ((collectEbayItems d).headD {}).title) ∧
    (normalizeGroupResponse d).description =
      (if d.description.isSome then d.description
       else ((collectEbayItems d).headD {}).description)

/-- A concrete group payload returned by the stub group endpoint. -/
def c5RawGroup : GroupData := { items := some [{ title := some "G" }] }

/-- Stub collaborators: the legacy lookup always fails with an error text
hinting at group id `111222333`, the group-detail endpoint succeeds only for
id `555666777000`, and everything else fails. -/
def stubOracles : Collaborators :=
  { getItemByLegacyId := fun _ =>
      .error "EBAY_LEGACY_FAIL 400 item_group_id=111222333"
    getItem := fun _ => .error "item fail"
    getItemGroup := fun id =>
      if id = "555666777000" then .ok c5RawGroup else .error "group fail"
    getItemsByItemGroup := fun _ => .error "items-by-group fail"
    extractListingIdentifiers := fun _ => .ok none
    productCreate := fun _ => .error "pc"
    productCreateMedia := fun _ _ => .error "pm"
    productVariantsBulkCreate := fun _ _ => .error "pv"
    productVariantAppendMedia := fun _ _ => .error "pa"
    shopEnv := "shop.example.com"
    nowMs := 0 }

/-- Sixty pairwise-distinct URLs (none parseable, so every import fails and
is still recorded). -/
def c9Urls : List String := (List.range 60).map (fun i => "u" ++ toString i)

/-- The strict version of the option-axis comparator: value-cardinality
strictly descending, or equal cardinality and strictly earlier first-seen
order. -/
def aspectLt (a b : AspectMeta) : Prop :=
  b.values.length < a.values.length ∨
    (a.values.length = b.values.length ∧ a.order < b.order)

/-- The (key, first-seen spelling, normalized value) triple contributed by one
aspect to the aggregation — `none` when `addAspect` would ignore it (falsy
name or value). -/
def aspectEntry (a : EbayAspect) : Option (String × String × String) :=
  match a.name with
  | none => none
  | some n =>
    let name := jsTrim n
    match normAspectValue a.value with
    | none => none
    | some v => if name = "" then none else some (jsToLower name, name, v)

/-- All aggregation entries of a group's members, in stream order. -/
def aspectEntries (items : List EbayItem) : List (String × String × String) :=
  (aspectStream items).filterMap aspectEntry

/-- The inner update of `addAspect` once name and value are known valid. -/
def addEntry (metas : List AspectMeta) (counter : Nat) (k nm v : String) :
    List AspectMeta × Nat :=
  if metas.any (fun m => m.key = k) then
    (metas.map (fun m =>
      if m.key = k then
        { m with values := if v ∈ m.values then m.values else m.values ++ [v] }
      else m), counter)
  else
    (metas ++ [{ key := k, originalName := nm, values := [v],
                 order := counter }], counter + 1)

/-- The invariant maintained by the aspect aggregation: distinct values per
entry, keys are the lower-cased spellings, and first-seen orders strictly
increase along the list and stay below the counter. -/
def AspectMetaInv (metas : List AspectMeta) (counter : Nat) : Prop :=
  (∀ m ∈ metas, m.values.Nodup ∧ m.key = jsToLower m.originalName ∧
    m.order < counter) ∧
  List.Pairwise (fun a b => a.order < b.order) metas

/-- A two-member group whose `Color` aspect varies (spelled `Color` then
`color`) and whose `Brand` aspect varies but is deny-listed. -/
def c2Group : GroupData :=
  { items := some
      [{ title := some "Shirt",
         localizedAspects := some
           [{ name := some "Color", value := .strV "Red" },
            { name := some "Brand", value := .strV "X" }] },
       { localizedAspects := some
           [{ name := some "color", value := .strV "Blue" },
            { name := some "Brand", value := .strV "Y" }] }] }

/-! ### Lemmas about the first-occurrence deduplication -/

theorem firstOccurrencesAux_sublist {α β : Type} [DecidableEq β] (f : α → β) :
    ∀ (l : List α) (seen : List β),
      List.Sublist (firstOccurrencesAux f l seen) l := by
  intro l
  induction l with
  | nil => intro seen; simp [firstOccurrencesAux]
  | cons x xs ih =>
    intro seen
    simp only [firstOccurrencesAux]
    by_cases h : f x ∈ seen
    · simp only [if_pos h]
      exact (ih seen).cons x
    · simp only [if_neg h]
      exact (ih (f x :: seen)).cons₂ x

theorem firstOccurrencesAux_keys_not_mem {α β : Type} [DecidableEq β]
    (f : α → β) :
    ∀ (l : List α) (seen : List β) (b : β),
      b ∈ (firstOccurrencesAux f l seen).map f → b ∉ seen := by
  intro l
  induction l with
  | nil => intro seen b h; simp [firstOccurrencesAux] at h
  | cons x xs ih =>
    intro seen b h
    simp only [firstOccurrencesAux] at h
    by_cases hx : f x ∈ seen
    · rw [if_pos hx] at h
      exact ih seen b h
    · rw [if_neg hx] at h
      simp only [List.map_cons, List.mem_cons] at h
      rcases h with h | h
      · exact h ▸ hx
      · intro hb
        exact ih (f x :: seen) b h (List.mem_cons_of_mem _ hb)

theorem firstOccurrencesAux_keys_nodup {α β : Type} [DecidableEq β]
    (f : α → β) :
    ∀ (l : List α) (seen : List β),
      ((firstOccurrencesAux f l seen).map f).Nodup := by
  intro l
  induction l with
  | nil => intro seen; simp [firstOccurrencesAux]
  | cons x xs ih =>
    intro seen
    simp only [firstOccurrencesAux]
    by_cases hx : f x ∈ seen
    · rw [if_pos hx]; exact ih seen
    · rw [if_neg hx]
      simp only [List.map_cons, List.nodup_cons]
      refine ⟨fun hmem => ?_, ih (f x :: seen)⟩
      exact firstOccurrencesAux_keys_not_mem f xs (f x :: seen) (f x) hmem
        (List.mem_cons_self _ _)

theorem rawVariantPayloadsAux_eq_firstOcc (sg : CanonicalProduct) :
    ∀ (vs : List CanonicalVariant) (seen : List String),
      rawVariantPayloadsAux sg vs seen =
        (firstOccurrencesAux (fun v => (mkRawVariantPayload sg v).key) vs
          seen).map (mkRawVariantPayload sg) := by
  intro vs
  induction vs with
  | nil => intro seen; simp [rawVariantPayloadsAux, firstOccurrencesAux]
  | cons v vs ih =>
    intro seen
    simp only [rawVariantPayloadsAux, firstOccurrencesAux]
    by_cases h : (mkRawVariantPayload sg v).key ∈ seen
    · rw [if_pos h, if_pos h, ih]
    · rw [if_neg h, if_neg h, List.map_cons, ih]

theorem rawVariantPayloads_keys_nodup (sg : CanonicalProduct) :
    ((rawVariantPayloads sg).map (·.key)).Nodup := by
  have h := firstOccurrencesAux_keys_nodup
    (fun v => (mkRawVariantPayload sg v).key) sg.variants []
  rw [rawVariantPayloads, rawVariantPayloadsAux_eq_firstOcc,
    List.map_map]
  exact h

theorem rawVariantPayloads_mem (sg : CanonicalProduct)
    (p : RawVariantPayload) (hp : p ∈ rawVariantPayloads sg) :
    ∃ v ∈ sg.variants, p = mkRawVariantPayload sg v := by
  rw [rawVariantPayloads, rawVariantPayloadsAux_eq_firstOcc] at hp
  obtain ⟨v, hv, rfl⟩ := List.mem_map.mp hp
  exact ⟨v, (firstOccurrencesAux_sublist _ _ _).mem hv, rfl⟩

/-- The payload fields of `buildShopifyProductInputFromEbay` in terms of the
deduplicated variant payload list. -/
theorem buildShopify_fields (sg : CanonicalProduct) :
    (buildShopifyProductInputFromEbay sg).variantInputs =
      ((rawVariantPayloads sg).take MAX_SHOPIFY_VARIANTS).map (·.input) ∧
    (buildShopifyProductInputFromEbay sg).variantAssets =
      ((rawVariantPayloads sg).take MAX_SHOPIFY_VARIANTS).map
        (fun v => { key := v.key, imageUrls := v.imageUrls }) ∧
    (buildShopifyProductInputFromEbay sg).meta =
      (if MAX_SHOPIFY_VARIANTS < (rawVariantPayloads sg).length then
        some { droppedVariants :=
          (rawVariantPayloads sg).length - MAX_SHOPIFY_VARIANTS }
       else none) := by
  refine ⟨rfl, rfl, ?_⟩
  show (if (rawVariantPayloads sg).length -
      ((rawVariantPayloads sg).take MAX_SHOPIFY_VARIANTS).length > 0 then
      _ else none) = _
  rw [List.length_take]
  rcases le_or_lt (rawVariantPayloads sg).length MAX_SHOPIFY_VARIANTS with h | h
  · rw [min_eq_right h, if_neg (by omega), if_neg (by omega)]
  · rw [min_eq_left (le_of_lt h), if_pos (by omega), if_pos h]

/-! ### C1 — variant cap and dropped-variant count -/

/-- C1: for every canonical product input the payload has at most 100 variant
inputs; when the deduplicated variant list has more than 100 entries, exactly
the first 100 (in input order) are kept and `meta.droppedVariants` counts the
excess. -/
theorem variant_cap_first100_and_dropped_count (sg : CanonicalProduct) :
    (buildShopifyProductInputFromEbay sg).variantInputs.length ≤ 100 ∧
    (100 < (rawVariantPayloads sg).length →
      (buildShopifyProductInputFromEbay sg).variantInputs =
        ((rawVariantPayloads sg).take 100).map (·.input) ∧
      (buildShopifyProductInputFromEbay sg).meta =
        some { droppedVariants := (rawVariantPayloads sg).length - 100 }) := by
  obtain ⟨hvi, _hva, hmeta⟩ := buildShopify_fields sg
  simp only [MAX_SHOPIFY_VARIANTS] at hvi hmeta
  constructor
  · rw [hvi, List.length_map, List.length_take]
    omega
  · intro h
    rw [hmeta, if_pos h]
    exact ⟨hvi, rfl⟩

set_option maxRecDepth 40000 in
set_option maxHeartbeats 1600000 in
/-- Witness for C1: on the 150-distinct-variant input the deduplicated list
has 150 entries, the payload keeps exactly 100 variant inputs, and
`meta.droppedVariants = 50`. -/
theorem variant_cap_first100_and_dropped_count_witness :
    (rawVariantPayloads c1Input).length = 150 ∧
    (buildShopifyProductInputFromEbay c1Input).variantInputs.length = 100 ∧
    (buildShopifyProductInputFromEbay c1Input).meta =
      some { droppedVariants := 50 } := by
  have h150 : (rawVariantPayloads c1Input).length = 150 := by decide
  have h := (variant_cap_first100_and_dropped_count c1Input).2 (by omega)
  refine ⟨h150, ?_, ?_⟩
  · rw [h.1, List.length_map, List.length_take, h150]
    omega
  · rw [h.2, h150]

/-! ### C3 — duplicate variant keys: first occurrence wins, silently -/

/-- C3: the deduplicated variant payload list keeps exactly the first
occurrence of every variant key (pairwise distinct keys, in input order);
later duplicates are omitted from `variantInputs`/`variantAssets` and the
`meta` diagnostic counts only the overflow of the already-deduplicated list,
never the dropped duplicates. -/
theorem duplicate_variant_keys_silently_dropped (sg : CanonicalProduct) :
    ((rawVariantPayloads sg).map (·.key)).Nodup ∧
    rawVariantPayloads sg =
      (firstOccurrences (fun v => (mkRawVariantPayload sg v).key)
        sg.variants).map (mkRawVariantPayload sg) ∧
    (buildShopifyProductInputFromEbay sg).variantInputs =
      ((rawVariantPayloads sg).take MAX_SHOPIFY_VARIANTS).map (·.input) ∧
    (buildShopifyProductInputFromEbay sg).meta =
      (if MAX_SHOPIFY_VARIANTS < (rawVariantPayloads sg).length then
        some { droppedVariants :=
          (rawVariantPayloads sg).length - MAX_SHOPIFY_VARIANTS }
       else none) := by
  obtain ⟨h1, _, h3⟩ := buildShopify_fields sg
  exact ⟨rawVariantPayloads_keys_nodup sg,
    rawVariantPayloadsAux_eq_firstOcc sg sg.variants [], h1, h3⟩

/-! ### C10 — positional correspondence of variantInputs and variantAssets -/

/-- C10: `variantInputs` and `variantAssets` have equal length and correspond
positionally: at every index the asset key equals `buildVariantKey` of the
input's option values and SKU, the asset's image list is the originating
variant's deduplicated image list, and the input's `mediaSrc` is the one-image
list holding its first element (absent when empty). -/
theorem variant_inputs_assets_positional (sg : CanonicalProduct) :
    (buildShopifyProductInputFromEbay sg).variantInputs.length =
      (buildShopifyProductInputFromEbay sg).variantAssets.length ∧
    ∀ i (hi : i < (buildShopifyProductInputFromEbay sg).variantInputs.length)
      (ha : i < (buildShopifyProductInputFromEbay sg).variantAssets.length),
      ((buildShopifyProductInputFromEbay sg).variantAssets.get ⟨i, ha⟩).key =
        buildVariantKey
          (((buildShopifyProductInputFromEbay sg).variantInputs.get
            ⟨i, hi⟩).optionValues.getD [])
          ((((buildShopifyProductInputFromEbay sg).variantInputs.get
            ⟨i, hi⟩).inventoryItem).bind (·.sku)) ∧
      ((buildShopifyProductInputFromEbay sg).variantInputs.get
          ⟨i, hi⟩).mediaSrc =
        ((((buildShopifyProductInputFromEbay sg).variantAssets.get
          ⟨i, ha⟩).imageUrls).head?).map (fun u => [u]) ∧
      ∃ v ∈ sg.variants,
        (((buildShopifyProductInputFromEbay sg).variantAssets.get
          ⟨i, ha⟩).imageUrls) = imageSourcesOf v ∧
        ((buildShopifyProductInputFromEbay sg).variantInputs.get ⟨i, hi⟩) =
          (mkRawVariantPayload sg v).input := by
  obtain ⟨hvi, hva, _⟩ := buildShopify_fields sg
  constructor
  · rw [hvi, hva, List.length_map, List.length_map]
  · intro i hi ha
    have hkept : i < ((rawVariantPayloads sg).take MAX_SHOPIFY_VARIANTS).length := by
      rw [hvi, List.length_map] at hi
      exact hi
    have hinp : (buildShopifyProductInputFromEbay sg).variantInputs.get ⟨i, hi⟩ =
        (((rawVariantPayloads sg).take MAX_SHOPIFY_VARIANTS).get
          ⟨i, hkept⟩).input := by
      have h1 := List.get_of_eq hvi ⟨i, hi⟩
      rw [h1, List.get_map]
    have hass : (buildShopifyProductInputFromEbay sg).variantAssets.get ⟨i, ha⟩ =
        { key := (((rawVariantPayloads sg).take MAX_SHOPIFY_VARIANTS).get
            ⟨i, hkept⟩).key,
          imageUrls := (((rawVariantPayloads sg).take MAX_SHOPIFY_VARIANTS).get
            ⟨i, hkept⟩).imageUrls } := by
      have h1 := List.get_of_eq hva ⟨i, ha⟩
      rw [h1, List.get_map]
    set p := ((rawVariantPayloads sg).take MAX_SHOPIFY_VARIANTS).get ⟨i, hkept⟩
      with hp
    have hpmem : p ∈ rawVariantPayloads sg :=
      (List.take_sublist _ _).mem (List.get_mem _ _ _)
    obtain ⟨v, hv, hpv⟩ := rawVariantPayloads_mem sg p hpmem
    refine ⟨?_, ?_, v, hv, ?_, ?_⟩
    · rw [hinp, hass, hpv]
      simp [mkRawVariantPayload]
    · rw [hinp, hass, hpv]
      simp [mkRawVariantPayload]
    · rw [hass, hpv]
      simp [mkRawVariantPayload]
    · rw [hinp, hpv]

/-- Witness for C10: on a concrete one-variant input, the two lists align and
index 0 carries the variant's deduplicated image list. -/
theorem variant_inputs_assets_positional_witness :
    (buildShopifyProductInputFromEbay c10Input).variantInputs.length =
      (buildShopifyProductInputFromEbay c10Input).variantAssets.length ∧
    ∃ v ∈ c10Input.variants,
      (((buildShopifyProductInputFromEbay c10Input).variantAssets.get
        ⟨0, by decide⟩).imageUrls) = imageSourcesOf v ∧
      imageSourcesOf v = ["u2", "u1"] := by
  have h := variant_inputs_assets_positional c10Input
  obtain ⟨-, -, v, hv, himg, -⟩ := h.2 0 (by decide) (by decide)
  exact ⟨h.1, v, hv, himg, by
    have : v = c10Input.variants.head (by decide) := by
      simpa [c10Input] using hv
    rw [this]
    decide⟩

/-! ### C4 — case/whitespace insensitivity of buildVariantKey -/

theorem normalizeKeyPart_congr {a b : Option String} (h : caseWsEquiv a b) :
    normalizeKeyPart a = normalizeKeyPart b := by
  rcases h with ⟨rfl, rfl⟩ | ⟨x, y, rfl, rfl, hxy⟩
  · rfl
  · simpa [normalizeKeyPart] using hxy

/-- C4 (counterexample): the claim as stated is false — a whitespace-only
option name and an empty option name are equal up to surrounding whitespace,
but the former is truthy (its trimmed text enters the key) while the latter
falls back to the default `Title` axis name. -/
theorem buildVariantKey_insensitivity_claim_false :
    ¬ buildVariantKeyInsensitivityClaim := by
  intro h
  have heq := h [{ optionName := some " ", name := some "x" }]
    [{ optionName := some "", name := some "x" }] none none rfl
    (fun i hi hi2 => by
      have h0 : i = 0 := by simpa using hi
      subst h0
      exact ⟨Or.inr ⟨" ", "", rfl, rfl, by decide⟩,
        Or.inr ⟨"x", "x", rfl, rfl, rfl⟩⟩)
    (Or.inl ⟨rfl, rfl⟩)
  exact absurd heq (by decide)

/-- C4 (amended): `buildVariantKey` is deterministic and invariant under case
and surrounding-whitespace changes of option names, option values and SKU,
provided the changes do not flip JS truthiness — i.e. corresponding option
names (resp. SKUs) are in addition both falsy or both non-empty. -/
theorem buildVariantKey_case_ws_insensitive
    (l l2 : List VariantOptionValue) (s s2 : Option String)
    (hlen : l.length = l2.length)
    (hcomp : ∀ i (hi : i < l.length) (hi2 : i < l2.length),
      caseWsEquiv (l.get ⟨i, hi⟩).optionName (l2.get ⟨i, hi2⟩).optionName ∧
      truthy (l.get ⟨i, hi⟩).optionName = truthy (l2.get ⟨i, hi2⟩).optionName ∧
      caseWsEquiv (l.get ⟨i, hi⟩).name (l2.get ⟨i, hi2⟩).name)
    (hsku : caseWsEquiv s s2) (hskut : truthy s = truthy s2) :
    buildVariantKey l s = buildVariantKey l2 s2 := by
  simp only [buildVariantKey]
  have hparts : l.map (fun opt =>
      normalizeKeyPart (jsOrS opt.optionName (some DEFAULT_OPTION_NAME)) ++ "=" ++
        normalizeKeyPart opt.name) =
      l2.map (fun opt =>
        normalizeKeyPart (jsOrS opt.optionName (some DEFAULT_OPTION_NAME)) ++ "=" ++
          normalizeKeyPart opt.name) := by
    apply List.ext_get (by simpa using hlen)
    intro n h1 h2
    rw [List.get_map, List.get_map]
    obtain ⟨hname, htr, hval⟩ := hcomp n (by simpa using h1) (by simpa using h2)
    have hv := normalizeKeyPart_congr hval
    have hn : normalizeKeyPart
        (jsOrS (l.get ⟨n, by simpa using h1⟩).optionName (some DEFAULT_OPTION_NAME)) =
        normalizeKeyPart
          (jsOrS (l2.get ⟨n, by simpa using h2⟩).optionName (some DEFAULT_OPTION_NAME)) := by
      unfold jsOrS
      rw [htr]
      by_cases ht : truthy (l2.get ⟨n, by simpa using h2⟩).optionName
      · rw [if_pos ht, if_pos ht]
        exact normalizeKeyPart_congr hname
      · rw [if_neg ht, if_neg ht]
    rw [hv, hn]
  rw [hparts, hskut]
  by_cases ht : truthy s2
  · rw [if_pos ht, if_pos ht, normalizeKeyPart_congr hsku]
  · rw [if_neg ht, if_neg ht]

/-- Witness for the amended C4, on the spec's own example:
`[{optionName:"Color", name:" Red "}]` with SKU `"SKU1"` and
`[{optionName:"color", name:"red"}]` with SKU `"sku1"` produce the same key. -/
theorem buildVariantKey_case_ws_insensitive_witness :
    buildVariantKey [{ optionName := some "Color", name := some " Red " }]
      (some "SKU1") =
    buildVariantKey [{ optionName := some "color", name := some "red" }]
      (some "sku1") := by
  apply buildVariantKey_case_ws_insensitive
  · rfl
  · intro i hi hi2
    have h0 : i = 0 := by simpa using hi
    subst h0
    exact ⟨Or.inr ⟨"Color", "color", rfl, rfl, by decide⟩, rfl,
      Or.inr ⟨" Red ", "red", rfl, rfl, by decide⟩⟩
  · exact Or.inr ⟨"SKU1", "sku1", rfl, rfl, by decide⟩
  · rfl

/-! ### C7 — parseNumericTail -/

theorem takeWhile_isDigit_of_all (l : List Char)
    (h : (l.takeWhile (fun c => c ≠ Char.ofNat 47)).all Char.isDigit = true) :
    l.takeWhile Char.isDigit = l.takeWhile (fun c => c ≠ Char.ofNat 47) := by
  induction l with
  | nil => rfl
  | cons c cs ih =>
    rw [List.takeWhile_cons] at h
    rw [List.takeWhile_cons, List.takeWhile_cons]
    by_cases hc : c = Char.ofNat 47
    · subst hc
      have h1 : (Char.ofNat 47).isDigit = false := by decide
      simp [h1]
    · have hb : (decide (c ≠ Char.ofNat 47)) = true := by simp [hc]
      rw [hb, if_pos rfl, List.all_cons, Bool.and_eq_true] at h
      rw [hb, if_pos rfl, if_pos h.1, ih h.2]

/-- C7 (counterexample): the claim's "for every URL without a ≥9-digit
trailing path segment, it returns none" is false — the `/itm/<digits>`
fallback fires on `https://www.ebay.com/itm/262742221410/extra`, whose
trailing segment is `extra`. -/
theorem parseNumericTail_none_claim_false : ¬ parseNumericTailNoneClaim := by
  intro h
  have h0 := h "https://www.ebay.com/itm/262742221410/extra"
    "/itm/262742221410/extra" (by decide) (by decide)
  exact absurd h0 (by decide)

/-- C7 (amended): for a malformed URL `parseNumericTail` returns none.  When
the pathname ends in a run of at least 9 digits — in particular, but not
only, when the whole trailing path segment consists of at least 9 digits —
it returns exactly that maximal trailing digit run (so a mixed last segment
such as `/itm/Apple-iPhone-234567890123` yields its digit suffix, not the
`/itm/` capture); when the whole trailing segment is digits the run and the
segment coincide, and exactly that segment is returned.  Only when the
trailing digit run is shorter than 9 does it fall back to matching an
`/itm/<≥9 digits>` segment anywhere in the path, returning none only when
that also fails. -/
theorem parseNumericTail_trailing_segment (url : String) :
    (pathnameOf url = none → parseNumericTail url = none) ∧
    (∀ p, pathnameOf url = some p →
      9 ≤ (trailingDigitRun p.data).length →
      parseNumericTail url = some (String.mk (trailingDigitRun p.data))) ∧
    (∀ p, pathnameOf url = some p →
      9 ≤ (lastSegmentChars p).length →
      (lastSegmentChars p).all Char.isDigit = true →
      trailingDigitRun p.data = lastSegmentChars p ∧
      parseNumericTail url = some (String.mk (lastSegmentChars p))) ∧
    (∀ p, pathnameOf url = some p → (trailingDigitRun p.data).length < 9 →
      parseNumericTail url = matchItmSegment p.data) := by
  have hrunCase : ∀ p, pathnameOf url = some p →
      9 ≤ (trailingDigitRun p.data).length →
      parseNumericTail url = some (String.mk (trailingDigitRun p.data)) := by
    intro p hp hlen
    have hm : matchTrailingDigits p =
        some (String.mk (trailingDigitRun p.data)) := by
      rw [matchTrailingDigits, if_pos hlen]
    simp [parseNumericTail, hp, hm]
  refine ⟨fun h => by rw [parseNumericTail, h], hrunCase, ?_, ?_⟩
  · intro p hp hlen hdig
    have hrun : trailingDigitRun p.data = lastSegmentChars p := by
      rw [trailingDigitRun, lastSegmentChars]
      congr 1
      apply takeWhile_isDigit_of_all
      have : (p.data.reverse.takeWhile (fun c => c ≠ Char.ofNat 47)).all
          Char.isDigit = (lastSegmentChars p).all Char.isDigit := by
        rw [lastSegmentChars, List.all_reverse]
      rw [this, hdig]
    refine ⟨hrun, ?_⟩
    rw [← hrun]
    exact hrunCase p hp (by rw [hrun]; exact hlen)
  · intro p hp hlt
    have hnone : matchTrailingDigits p = none := by
      rw [matchTrailingDigits, if_neg (by omega)]
    simp [parseNumericTail, hp, hnone]

/-- Witness for the amended C7: an all-digit trailing segment is returned
exactly, and on a mixed last segment (`Apple-iPhone-234567890123`) the
trailing digit run is returned — the `/itm/` fallback does not fire. -/
theorem parseNumericTail_trailing_segment_witness :
    pathnameOf "https://www.ebay.com/itm/262742221410" =
      some "/itm/262742221410" ∧
    parseNumericTail "https://www.ebay.com/itm/262742221410" =
      some "262742221410" ∧
    pathnameOf "https://www.ebay.com/itm/Apple-iPhone-234567890123" =
      some "/itm/Apple-iPhone-234567890123" ∧
    parseNumericTail "https://www.ebay.com/itm/Apple-iPhone-234567890123" =
      some "234567890123" := by
  refine ⟨by decide, ?_, by decide, ?_⟩
  · have h := ((parseNumericTail_trailing_segment
      "https://www.ebay.com/itm/262742221410").2.2.1 "/itm/262742221410"
      (by decide) (by decide) (by decide)).2
    have he : String.mk (lastSegmentChars "/itm/262742221410") =
        "262742221410" := by decide
    rw [he] at h
    exact h
  · have h := (parseNumericTail_trailing_segment
      "https://www.ebay.com/itm/Apple-iPhone-234567890123").2.1
      "/itm/Apple-iPhone-234567890123" (by decide) (by decide)
    have he : String.mk (trailingDigitRun
        "/itm/Apple-iPhone-234567890123".data) = "234567890123" := by decide
    rw [he] at h
    exact h

/-! ### C6 — group-response normalization -/

/-- C6 (counterexample): the claim is false for a group response whose
`items` field is an empty array while `itemSummaries` is populated —
`normalizeGroupResponse` keeps the empty `items` array, it does not fall
through to the populated field. -/
theorem normalizeGroup_claim_false : ¬ normalizeGroupClaim := by
  intro h
  have h0 := (h { items := some [],
                  itemSummaries := some [{ title := some "T" }] }).1
  exact absurd h0 (by decide)

/-- C6 (amended): `normalizeGroupResponse` takes `items` from the first of
`items`/`itemSummaries`/`itemSummariesV2` that is present as an array — even
an empty one — and backfills `title`/`description` from the first item of
that chosen list only when the group-level field is falsy (absent or empty);
all other fields are spread through unchanged. -/
theorem normalizeGroupResponse_first_array (d : GroupData) :
    (normalizeGroupResponse d).items = some (firstArrayItems d) ∧
    (normalizeGroupResponse d).title =
      jsOrS d.title ((firstArrayItems d).headD {}).title ∧
    (normalizeGroupResponse d).description =
      jsOrS d.description ((firstArrayItems d).headD {}).description ∧
    (normalizeGroupResponse d).itemSummaries = d.itemSummaries ∧
    (normalizeGroupResponse d).itemSummariesV2 = d.itemSummariesV2 ∧
    (normalizeGroupResponse d).commonDescriptions = d.commonDescriptions := by
  obtain ⟨items, itemSummaries, itemSummariesV2, title, description, cds⟩ := d
  refine ⟨?_, ?_, ?_, rfl, rfl, rfl⟩ <;>
    cases items <;> cases itemSummaries <;> cases itemSummariesV2 <;> rfl

/-! ### C5 — resolver recovery: legacy fails, hinted group fails, numeric
group succeeds -/

theorem matchGroupId_ne_empty : ∀ (l : List Char) (s : String),
    matchGroupId l = some s → s ≠ "" := by
  intro l
  induction l with
  | nil => intro s h; simp [matchGroupId] at h
  | cons c rest ih =>
    intro s h
    rw [matchGroupId] at h
    split at h
    · dsimp only at h
      split at h
      · rename_i hlen
        obtain rfl := Option.some.inj h
        intro hs
        have hdata : List.takeWhile Char.isDigit (List.drop 14 (c :: rest)) =
            [] := by
          have := congrArg String.data hs
          simpa using this
        rw [hdata] at hlen
        simp at hlen
      · exact ih s h
    · exact ih s h

/-- C5: when the legacy lookup fails with a message hinting a group id, both
group endpoints fail on the hinted id and the group-detail endpoint succeeds
on the numeric tail, the resolver returns the normalized group payload with
`isGroup = true`, and the diagnostic notes list the legacy failure and the two
hinted-group failures, in order, before the numeric-group success entry. -/
theorem resolver_recovery_group_by_numeric
    (o : Collaborators) (sourceUrl numeric e0 hinted e1 e2 : String)
    (raw : GroupData)
    (hne : numeric ≠ "")
    (hleg : o.getItemByLegacyId numeric = .error e0)
    (hhint : parseGroupIdFromErrorText e0 = some hinted)
    (h1 : o.getItemGroup hinted = .error e1)
    (h2 : o.getItemsByItemGroup hinted = .error e2)
    (hnum : o.getItemGroup numeric = .ok raw) :
    resolveListing o sourceUrl numeric =
      .ok (.group (normalizeGroupResponse raw), true) ∧
    (recoverResolve o sourceUrl numeric e0).notes =
      ["legacy(" ++ numeric ++ "): " ++ e0,
       "item_group(" ++ hinted ++ "): " ++ e1,
       "get_items_by_item_group(" ++ hinted ++ "): " ++ e2,
       "item_group(" ++ numeric ++ "): success"] ∧
    (recoverResolve o sourceUrl numeric e0).isGroup = true := by
  have hd : hinted ≠ numeric := by
    intro hEq
    rw [hEq, hnum] at h1
    exact Except.noConfusion h1
  have hne2 : hinted ≠ "" := matchGroupId_ne_empty _ _ hhint
  have hrec : recoverResolve o sourceUrl numeric e0 =
      { itemOrGroup := some (.group (normalizeGroupResponse raw)),
        isGroup := true,
        notes := ["legacy(" ++ numeric ++ "): " ++ e0,
          "item_group(" ++ hinted ++ "): " ++ e1,
          "get_items_by_item_group(" ++ hinted ++ "): " ++ e2,
          "item_group(" ++ numeric ++ "): success"],
        attemptedGroupIds := [hinted, numeric],
        attemptedLegacyIds := [numeric], attemptedItemIds := [],
        scraped := none } := by
    have hd2 : ¬(numeric = hinted) := fun hEq => hd hEq.symm
    simp [recoverResolve, tryGroupId, groupAttempt, truthy, hhint, hleg, h1,
      h2, hnum, hne, hne2, hd, hd2]
  refine ⟨?_, by rw [hrec], by rw [hrec]⟩
  rw [resolveListing, hleg]
  simp only [hrec]

/-- Witness for C5: the stub collaborators realize the scenario on the url
`https://www.ebay.com/itm/555666777000`. -/
theorem resolver_recovery_group_by_numeric_witness :
    resolveListing stubOracles "https://www.ebay.com/itm/555666777000"
      "555666777000" = .ok (.group (normalizeGroupResponse c5RawGroup), true) ∧
    (recoverResolve stubOracles "https://www.ebay.com/itm/555666777000"
      "555666777000" "EBAY_LEGACY_FAIL 400 item_group_id=111222333").notes =
      ["legacy(555666777000): EBAY_LEGACY_FAIL 400 item_group_id=111222333",
       "item_group(111222333): group fail",
       "get_items_by_item_group(111222333): items-by-group fail",
       "item_group(555666777000): success"] ∧
    (recoverResolve stubOracles "https://www.ebay.com/itm/555666777000"
      "555666777000" "EBAY_LEGACY_FAIL 400 item_group_id=111222333").isGroup =
      true := by
  have h := resolver_recovery_group_by_numeric stubOracles
    "https://www.ebay.com/itm/555666777000" "555666777000"
    "EBAY_LEGACY_FAIL 400 item_group_id=111222333" "111222333"
    "group fail" "items-by-group fail" c5RawGroup
    (by decide) rfl (by decide) rfl rfl rfl
  exact ⟨h.1, h.2.1, h.2.2⟩

theorem importBody_sourceUrl (o : Collaborators) (r : ImportResult) :
    (∀ r2, importBody o r = .ok r2 → r2.sourceUrl = r.sourceUrl) ∧
    (∀ r2 e, importBody o r = .error (r2, e) → r2.sourceUrl = r.sourceUrl) := by
  constructor
  · intro r2 h
    unfold importBody at h
    repeat' first
      | (split at h)
      | (dsimp only at h)
    all_goals first
      | exact Except.noConfusion h
      | (injection h with h1; subst h1; rfl)
  · intro r2 e h
    unfold importBody at h
    repeat' first
      | (split at h)
      | (dsimp only at h)
    all_goals first
      | exact Except.noConfusion h
      | (injection h with h1
         injection h1 with h2 h3
         subst h2
         rfl)

theorem importOne_sourceUrl (o : Collaborators) (url : String) :
    (importOne o url).sourceUrl = url := by
  rw [importOne]
  cases hb : importBody o { sourceUrl := url, status := .failed } with
  | ok r2 =>
    have := (importBody_sourceUrl o { sourceUrl := url, status := .failed }).1
      r2 hb
    simpa using this
  | error pe =>
    obtain ⟨r2, e⟩ := pe
    have := (importBody_sourceUrl o { sourceUrl := url, status := .failed }).2
      r2 e hb
    simpa using this

theorem runImportLoop_eq (o : Collaborators) (urls : List String)
    (cache : List ImportResult) :
    runImportLoop o urls cache =
      (urls.map (importOne o), (urls.map (importOne o)).foldl pushBounded
        cache) := by
  rw [runImportLoop]
  suffices h : ∀ (us : List String) (acc : List ImportResult)
      (c : List ImportResult),
      us.foldl (fun acc url =>
        (acc.1 ++ [importOne o url], pushBounded acc.2 (importOne o url)))
        (acc, c) =
      (acc ++ us.map (importOne o), (us.map (importOne o)).foldl pushBounded c) by
    simpa using h urls [] cache
  intro us
  induction us with
  | nil => intro acc c; simp
  | cons u us ih =>
    intro acc c
    simp only [List.foldl_cons, List.map_cons]
    rw [ih]
    simp

theorem take_append_take {α : Type} (a b : List α) (n : Nat) :
    (a ++ b.take n).take n = (a ++ b).take n := by
  rw [List.take_append_eq_append_take, List.take_append_eq_append_take,
    List.take_take]
  congr 1
  rw [min_eq_left (by omega)]

theorem pushBounded_eq_take (cache : List ImportResult) (r : ImportResult)
    (h : cache.length ≤ 50) :
    pushBounded cache r = (r :: cache).take 50 := by
  rw [pushBounded]
  by_cases h50 : (r :: cache).length > 50
  · rw [if_pos h50]
    have hl : (r :: cache).length = 51 := by
      simp only [List.length_cons] at h50 ⊢
      omega
    rw [List.dropLast_eq_take, hl]
  · rw [if_neg h50]
    rw [List.take_of_length_le (by omega)]

theorem foldl_pushBounded (rs : List ImportResult) :
    ∀ (cache : List ImportResult), cache.length ≤ 50 →
      rs.foldl pushBounded cache = (rs.reverse ++ cache).take 50 := by
  induction rs with
  | nil =>
    intro c h
    simp [List.take_of_length_le h]
  | cons r rs ih =>
    intro c h
    rw [List.foldl_cons, pushBounded_eq_take _ _ h,
      ih _ (by rw [List.length_take]; omega)]
    rw [List.reverse_cons, List.append_assoc, List.singleton_append,
      take_append_take]

theorem headOpt_take {α : Type} (l : List α) (n : Nat) (hn : 0 < n) :
    (l.take n).head? = l.head? := by
  cases l with
  | nil => simp
  | cons x xs =>
    cases n with
    | zero => omega
    | succ m => simp [List.take_succ_cons]

/-- C8: for a batch with a non-empty URL list the response holds exactly one
result per (truthy) input URL, in order; any failure inside one URL's
processing is caught and becomes a `status = failed` result carrying the
error text on the result record as built so far, with its `sourceUrl` intact,
and the loop continues with the remaining URLs. -/
theorem per_url_failure_isolated (o : Collaborators) (rawUrls : List String)
    (cache : List ImportResult)
    (hne : rawUrls.filter (fun u => u ≠ "") ≠ []) :
    (postImport o rawUrls cache).1 =
      .ok ((rawUrls.filter (fun u => u ≠ "")).map (importOne o)) ∧
    ((rawUrls.filter (fun u => u ≠ "")).map (importOne o)).length =
      (rawUrls.filter (fun u => u ≠ "")).length ∧
    (∀ url, (importOne o url).sourceUrl = url) ∧
    (∀ url r e,
      importBody o { sourceUrl := url, status := .failed } = .error (r, e) →
      importOne o url = { r with error := some e, status := .failed } ∧
      (importOne o url).status = .failed ∧
      (importOne o url).error = some e) := by
  refine ⟨?_, List.length_map _ _, importOne_sourceUrl o, ?_⟩
  · rw [postImport]
    simp only [if_neg hne, runImportLoop_eq]
  · intro url r e h
    have h1 : importOne o url = { r with error := some e, status := .failed } := by
      rw [importOne, h]
    exact ⟨h1, by rw [h1], by rw [h1]⟩

theorem take_reverse_eq_reverse_drop {α : Type} (l : List α) (n : Nat)
    (h : n ≤ l.length) :
    l.reverse.take n = (l.drop (l.length - n)).reverse := by
  have hsplit : l.reverse =
      (l.drop (l.length - n)).reverse ++ (l.take (l.length - n)).reverse := by
    rw [← List.reverse_append, List.take_append_drop]
  rw [hsplit]
  apply List.take_left'
  rw [List.length_reverse, List.length_drop]
  omega

/-- C9: the bounded history places every new result at the front and evicts
the oldest past 50 entries; after importing 60 distinct URLs into an empty
history it holds exactly 50 entries, its newest entry is the 60th import, and
the results of the oldest 10 imports are no longer present. -/
theorem history_bounded_newest_first (o : Collaborators) (urls : List String)
    (h60 : urls.length = 60) (hnd : urls.Nodup)
    (hne : ∀ u ∈ urls, u ≠ "") :
    (∀ (cache : List ImportResult) (r : ImportResult), cache.length ≤ 50 →
      pushBounded cache r = (r :: cache).take 50) ∧
    (postImport o urls []).2 = ((urls.map (importOne o)).reverse).take 50 ∧
    (postImport o urls []).2.length = 50 ∧
    (postImport o urls []).2.head? = (urls.map (importOne o)).getLast? ∧
    ∀ i (hi : i < 10) (hm : i < (urls.map (importOne o)).length),
      (urls.map (importOne o)).get ⟨i, hm⟩ ∉ (postImport o urls []).2 := by
  have hfilter : urls.filter (fun u => u ≠ "") = urls := by
    rw [List.filter_eq_self]
    intro u hu
    simpa using hne u hu
  have hul : urls ≠ [] := by
    intro h
    rw [h] at h60
    simp at h60
  have hcache : (postImport o urls []).2 =
      ((urls.map (importOne o)).reverse).take 50 := by
    rw [postImport]
    simp only [hfilter, if_neg hul, runImportLoop_eq]
    rw [foldl_pushBounded _ _ (by simp)]
    simp
  refine ⟨pushBounded_eq_take, hcache, ?_, ?_, ?_⟩
  · rw [hcache, List.length_take, List.length_reverse, List.length_map, h60]
    omega
  · rw [hcache, headOpt_take _ _ (by omega), List.head?_reverse]
  · intro i hi hm hmem
    rw [hcache] at hmem
    have hsrc : ((urls.map (importOne o)).reverse.take 50).map
        (fun r => r.sourceUrl) = (urls.drop 10).reverse := by
      rw [List.map_take, List.map_reverse, List.map_map]
      have : (fun r => ImportResult.sourceUrl r) ∘ importOne o = fun u => u := by
        funext u
        exact importOne_sourceUrl o u
      rw [this, List.map_id']
      rw [take_reverse_eq_reverse_drop _ _ (by rw [h60]; omega), h60]
    have h1 : ((urls.map (importOne o)).get ⟨i, hm⟩).sourceUrl ∈
        (urls.drop 10).reverse := by
      rw [← hsrc]
      exact List.mem_map_of_mem _ hmem
    rw [List.mem_reverse] at h1
    have hiu : i < urls.length := by
      rw [List.length_map] at hm
      exact hm
    have h2 : ((urls.map (importOne o)).get ⟨i, hm⟩).sourceUrl =
        urls.get ⟨i, hiu⟩ := by
      simp only [List.get_eq_getElem, List.getElem_map]
      exact importOne_sourceUrl o _
    rw [h2] at h1
    have hnd2 : (urls.take 10 ++ urls.drop 10).Nodup := by
      rw [List.take_append_drop]
      exact hnd
    have hdisj := (List.nodup_append.mp hnd2).2.2
    have hmem10 : urls.get ⟨i, hiu⟩ ∈ urls.take 10 := by
      have hg : (urls.take 10).get ⟨i, by rw [List.length_take]; omega⟩ =
          urls.get ⟨i, hiu⟩ := by
        simp [List.get_eq_getElem, List.getElem_take]
      rw [← hg]
      exact List.get_mem _ _ _
    exact hdisj hmem10 h1

/-- Witness for C8: a one-URL batch whose URL cannot be parsed still yields a
well-formed single failed result carrying the error text. -/
theorem per_url_failure_isolated_witness :
    (["nota-url"].filter (fun u => u ≠ "") ≠ []) ∧
    (postImport stubOracles ["nota-url"] []).1 =
      .ok [{ sourceUrl := "nota-url", status := .failed,
             error := some "Cannot parse numeric id from URL" }] := by
  have h := per_url_failure_isolated stubOracles ["nota-url"] [] (by decide)
  have hm : (["nota-url"].filter (fun u => u ≠ "")).map
      (importOne stubOracles) =
      [{ sourceUrl := "nota-url", status := .failed,
         error := some "Cannot parse numeric id from URL" }] := by decide
  exact ⟨by decide, by rw [h.1, hm]⟩

/-- Witness for C9: sixty concrete distinct URLs leave exactly 50 history
entries. -/
theorem history_bounded_newest_first_witness :
    c9Urls.length = 60 ∧ c9Urls.Nodup ∧
    (postImport stubOracles c9Urls []).2.length = 50 := by
  have h := history_bounded_newest_first stubOracles c9Urls (by decide)
    (by decide) (by decide)
  exact ⟨by decide, by decide, h.2.2.1⟩

/-! ### C2 — option-axis selection of mapEbayItemGroup -/

theorem firstOccurrencesAux_congr_seen {α β : Type} [DecidableEq β]
    (f : α → β) : ∀ (l : List α) (seen seen2 : List β),
    (∀ b, b ∈ seen ↔ b ∈ seen2) →
    firstOccurrencesAux f l seen = firstOccurrencesAux f l seen2 := by
  intro l
  induction l with
  | nil => intro seen seen2 hEq; rfl
  | cons x xs ih =>
    intro seen seen2 hEq
    rw [firstOccurrencesAux, firstOccurrencesAux]
    by_cases hx : f x ∈ seen
    · rw [if_pos hx, if_pos ((hEq (f x)).mp hx)]
      exact ih seen seen2 hEq
    · rw [if_neg hx, if_neg (fun hcon => hx ((hEq (f x)).mpr hcon))]
      congr 1
      apply ih
      intro b
      simp only [List.mem_cons]
      exact or_congr Iff.rfl (hEq b)

theorem addAspect_eq_addEntry (metas : List AspectMeta) (counter : Nat)
    (a : EbayAspect) :
    addAspect metas counter a.name a.value =
      (match aspectEntry a with
       | none => (metas, counter)
       | some (k, nm, v) => addEntry metas counter k nm v) := by
  rw [addAspect.eq_def, aspectEntry.eq_def]
  cases a.name with
  | none => rfl
  | some n =>
    dsimp only
    cases normAspectValue a.value with
    | none => rfl
    | some v =>
      dsimp only
      by_cases hn : jsTrim n = ""
      · rw [if_pos hn, if_pos hn]
      · rw [if_neg hn, if_neg hn]
        rfl

theorem aspectEntry_key (a : EbayAspect) (k nm v : String)
    (h : aspectEntry a = some (k, nm, v)) : k = jsToLower nm := by
  rw [aspectEntry.eq_def] at h
  repeat' first
    | (split at h)
    | (dsimp only at h)
  all_goals first
    | exact Option.noConfusion h
    | (simp only [Option.some.injEq, Prod.mk.injEq] at h
       obtain ⟨hk, hnm, hv⟩ := h
       rw [← hk, ← hnm])

theorem foldAdd_pairs (aspects : List EbayAspect) :
    ∀ (metas : List AspectMeta) (counter : Nat),
      ((aspects.foldl (fun acc a => addAspect acc.1 acc.2 a.name a.value)
        (metas, counter)).1).map (fun m => (m.key, m.originalName)) =
      metas.map (fun m => (m.key, m.originalName)) ++
        firstOccurrencesAux Prod.fst
          ((aspects.filterMap aspectEntry).map (fun e => (e.1, e.2.1)))
          (metas.map (·.key)) := by
  induction aspects with
  | nil =>
    intro metas counter
    simp [firstOccurrencesAux]
  | cons a rest ih =>
    intro metas counter
    rw [List.foldl_cons, List.filterMap_cons]
    have hstep := addAspect_eq_addEntry metas counter a
    cases he : aspectEntry a with
    | none =>
      rw [he] at hstep
      simp only [hstep, he]
      exact ih metas counter
    | some e =>
      obtain ⟨k, nm, v⟩ := e
      rw [he] at hstep
      simp only [hstep, he]
      rw [addEntry]
      by_cases hany : metas.any (fun m => m.key = k)
      · rw [if_pos hany]
        have hk : k ∈ metas.map (·.key) := by
          simp only [List.any_eq_true] at hany
          obtain ⟨m, hm, hmk⟩ := hany
          simp only [List.mem_map]
          exact ⟨m, hm, by simpa using hmk⟩
        rw [List.map_cons, firstOccurrencesAux, if_pos hk]
        have hmapkeys : (metas.map (fun m =>
            if m.key = k then
              { m with values :=
                if v ∈ m.values then m.values else m.values ++ [v] }
            else m)).map (·.key) = metas.map (·.key) := by
          rw [List.map_map]
          apply List.map_congr_left
          intro m _
          by_cases hmk : m.key = k <;> simp [hmk]
        have hmappairs : (metas.map (fun m =>
            if m.key = k then
              { m with values :=
                if v ∈ m.values then m.values else m.values ++ [v] }
            else m)).map (fun m => (m.key, m.originalName)) =
            metas.map (fun m => (m.key, m.originalName)) := by
          rw [List.map_map]
          apply List.map_congr_left
          intro m _
          by_cases hmk : m.key = k <;> simp [hmk]
        rw [ih, hmapkeys, hmappairs]
      · rw [if_neg hany]
        have hk : k ∉ metas.map (·.key) := by
          intro hcon
          apply hany
          simp only [List.mem_map] at hcon
          obtain ⟨m, hm, hmk⟩ := hcon
          simp only [List.any_eq_true]
          exact ⟨m, hm, by simpa using hmk⟩
        rw [List.map_cons, firstOccurrencesAux, if_neg hk]
        rw [ih]
        simp only [List.map_append, List.map_cons, List.map_nil]
        rw [List.append_assoc, List.singleton_append]
        congr 2
        apply firstOccurrencesAux_congr_seen
        intro b
        simp only [List.mem_append, List.mem_cons, List.mem_singleton]
        tauto

theorem addEntry_inv (metas : List AspectMeta) (counter : Nat)
    (k nm v : String) (hk : k = jsToLower nm)
    (h : AspectMetaInv metas counter) :
    AspectMetaInv (addEntry metas counter k nm v).1
      (addEntry metas counter k nm v).2 := by
  obtain ⟨hmem, hord⟩ := h
  rw [addEntry]
  by_cases hany : metas.any (fun m => m.key = k)
  · rw [if_pos hany]
    refine ⟨?_, ?_⟩
    · intro m hm
      simp only [List.mem_map] at hm
      obtain ⟨m0, hm0, rfl⟩ := hm
      obtain ⟨hv0, hk0, ho0⟩ := hmem m0 hm0
      by_cases hmk : m0.key = k
      · simp only [if_pos hmk]
        refine ⟨?_, hk0, ho0⟩
        by_cases hvm : v ∈ m0.values
        · simpa [hvm] using hv0
        · simp only [if_neg hvm]
          rw [List.nodup_append]
          exact ⟨hv0, List.nodup_singleton v, by simpa using hvm⟩
      · simpa [hmk] using ⟨hv0, hk0, ho0⟩
    · exact List.Pairwise.map _ (fun a b hab => by
        by_cases ha2 : a.key = k <;> by_cases hb2 : b.key = k <;>
          simpa [ha2, hb2] using hab) hord
  · rw [if_neg hany]
    constructor
    · intro m hm
      rw [List.mem_append] at hm
      rcases hm with hm | hm
      · obtain ⟨hv0, hk0, ho0⟩ := hmem m hm
        exact ⟨hv0, hk0, by omega⟩
      · rw [List.mem_singleton] at hm
        subst hm
        refine ⟨List.nodup_singleton v, hk, ?_⟩
        show counter < counter + 1
        omega
    · rw [List.pairwise_append]
      refine ⟨hord, List.pairwise_singleton _ _, ?_⟩
      intro a ha b hb
      rw [List.mem_singleton] at hb
      subst hb
      exact (hmem a ha).2.2

theorem foldAdd_inv (aspects : List EbayAspect) :
    ∀ (metas : List AspectMeta) (counter : Nat),
      AspectMetaInv metas counter →
      AspectMetaInv
        ((aspects.foldl (fun acc a => addAspect acc.1 acc.2 a.name a.value)
          (metas, counter)).1)
        ((aspects.foldl (fun acc a => addAspect acc.1 acc.2 a.name a.value)
          (metas, counter)).2) := by
  induction aspects with
  | nil => intro metas counter h; exact h
  | cons a rest ih =>
    intro metas counter h
    rw [List.foldl_cons]
    have hstep := addAspect_eq_addEntry metas counter a
    cases he : aspectEntry a with
    | none =>
      rw [he] at hstep
      rw [hstep]
      exact ih metas counter h
    | some e =>
      obtain ⟨k, nm, v⟩ := e
      rw [he] at hstep
      rw [hstep]
      have hk := aspectEntry_key a k nm v he
      have h2 := addEntry_inv metas counter k nm v hk h
      exact ih _ _ h2

theorem aggregateAspects_inv (items : List EbayItem) :
    ∃ counter, AspectMetaInv (aggregateAspects items) counter := by
  refine ⟨((aspectStream items).foldl
    (fun acc a => addAspect acc.1 acc.2 a.name a.value)
    (([] : List AspectMeta), 0)).2, ?_⟩
  exact foldAdd_inv (aspectStream items) [] 0
    ⟨fun m hm => absurd hm (List.not_mem_nil m), List.Pairwise.nil⟩

theorem aggregateAspects_pairs (items : List EbayItem) :
    (aggregateAspects items).map (fun m => (m.key, m.originalName)) =
      firstOccurrences Prod.fst
        ((aspectEntries items).map (fun e => (e.1, e.2.1))) := by
  have h := foldAdd_pairs (aspectStream items) [] 0
  simpa [aggregateAspects, aspectEntries, firstOccurrences] using h

theorem mem_eligibleAspects {metas : List AspectMeta} {m : AspectMeta}
    (h : m ∈ eligibleAspects metas) :
    m ∈ metas ∧ 1 < m.values.length ∧ m.originalName.length ≤ 30 ∧
      m.values.length ≤ 50 ∧ jsToLower m.originalName ∉ denyList := by
  rw [eligibleAspects] at h
  simp only [List.mem_filter, decide_eq_true_eq, Bool.not_eq_true',
    decide_eq_false_iff_not] at h
  tauto

theorem eligibleAspects_sublist (metas : List AspectMeta) :
    List.Sublist (eligibleAspects metas) metas :=
  ((List.filter_sublist _).trans (List.filter_sublist _)).trans
    (List.filter_sublist _)

theorem sorted_take3_strict (metas : List AspectMeta) (counter : Nat)
    (hinv : AspectMetaInv metas counter) :
    List.Pairwise aspectLt
      (((eligibleAspects metas).insertionSort aspectLe).take 3) := by
  have hsorted : List.Sorted aspectLe
      ((eligibleAspects metas).insertionSort aspectLe) :=
    List.sorted_insertionSort aspectLe (eligibleAspects metas)
  have hperm := List.perm_insertionSort aspectLe (eligibleAspects metas)
  have hordmetas : List.Pairwise (fun a b : AspectMeta => a.order ≠ b.order)
      metas := hinv.2.imp (fun hab => Nat.ne_of_lt hab)
  have hordelig : List.Pairwise (fun a b : AspectMeta => a.order ≠ b.order)
      (eligibleAspects metas) :=
    List.Pairwise.sublist (eligibleAspects_sublist metas) hordmetas
  have hnodup : ((eligibleAspects metas).map (·.order)).Nodup := by
    rw [List.Nodup, List.pairwise_map]
    exact hordelig
  have hnodup2 : (((eligibleAspects metas).insertionSort aspectLe).map
      (·.order)).Nodup := ((hperm.map _).nodup_iff).mpr hnodup
  have hordsorted : List.Pairwise (fun a b : AspectMeta => a.order ≠ b.order)
      ((eligibleAspects metas).insertionSort aspectLe) := by
    rw [List.Nodup, List.pairwise_map] at hnodup2
    exact hnodup2
  have hstrict : List.Pairwise aspectLt
      ((eligibleAspects metas).insertionSort aspectLe) := by
    refine (hsorted.and hordsorted).imp ?_
    rintro a b ⟨hle, hne⟩
    rcases hle with hlt | ⟨hcard, hord⟩
    · exact Or.inl hlt
    · exact Or.inr ⟨hcard, lt_of_le_of_ne hord hne⟩
  exact List.Pairwise.sublist (List.take_sublist 3 _) hstrict

/-- C2: for every group payload with at least one member, `optionsOrder` is
the first-seen spelling of the aggregated aspect names — aggregated
case-insensitively (keys are the lower-cased trimmed spellings, one entry per
key in first-seen order) with deduplicated value sets — kept only when the
distinct-value cardinality exceeds 1, the name is at most 30 characters, the
value cardinality at most 50 and the lower-cased name is not deny-listed;
ranked by value-cardinality descending with ties broken by first-seen order
ascending, and truncated to at most 3 names. -/
theorem group_options_ranked_filtered_truncated (g : GroupData) (h : collectEbayItems g ≠ []) :
    ∃ p, mapEbayItemGroup g = .ok p ∧
      p.optionsOrder =
        (((eligibleAspects (aggregateAspects
          (collectEbayItems g))).insertionSort aspectLe).take 3).map
          (·.originalName) ∧
      p.optionsOrder.length =
        min 3 (eligibleAspects (aggregateAspects
          (collectEbayItems g))).length ∧
      (∀ name ∈ p.optionsOrder,
        ∃ m ∈ aggregateAspects (collectEbayItems g), m.originalName = name ∧
          1 < m.values.length ∧ m.values.length ≤ 50 ∧ name.length ≤ 30 ∧
          jsToLower name ∉ denyList ∧ m.values.Nodup) ∧
      List.Pairwise aspectLt
        (((eligibleAspects (aggregateAspects
          (collectEbayItems g))).insertionSort aspectLe).take 3) ∧
      ((eligibleAspects (aggregateAspects (collectEbayItems g))).length ≤ 3 →
        ∀ m ∈ eligibleAspects (aggregateAspects (collectEbayItems g)),
          m.originalName ∈ p.optionsOrder) ∧
      (aggregateAspects (collectEbayItems g)).map
          (fun m => (m.key, m.originalName)) =
        firstOccurrences Prod.fst
          ((aspectEntries (collectEbayItems g)).map (fun e => (e.1, e.2.1))) ∧
      (∀ m ∈ aggregateAspects (collectEbayItems g),
        m.key = jsToLower m.originalName) ∧
      List.Pairwise (fun a b : AspectMeta => a.order < b.order)
        (aggregateAspects (collectEbayItems g)) := by
  obtain ⟨counter, hinv⟩ := aggregateAspects_inv (collectEbayItems g)
  have hpairs := aggregateAspects_pairs (collectEbayItems g)
  have hstrict := sorted_take3_strict (aggregateAspects (collectEbayItems g))
    counter hinv
  have hok : ∃ p, mapEbayItemGroup g = .ok p ∧
      p.optionsOrder = optionNamesOf (collectEbayItems g) := by
    cases hitems : collectEbayItems g with
    | nil => exact absurd hitems h
    | cons first rest =>
      rw [mapEbayItemGroup.eq_def, hitems]
      exact ⟨_, rfl, rfl⟩
  obtain ⟨p, hg, hoo⟩ := hok
  refine ⟨p, hg, ?_, ?_, ?_, hstrict, ?_, hpairs,
    fun m hm => (hinv.1 m hm).2.1, hinv.2⟩
  · rw [hoo, optionNamesOf]
  · rw [hoo, optionNamesOf, List.map_take, List.length_take, List.length_map,
      List.length_insertionSort]
  · intro name hname
    rw [hoo, optionNamesOf] at hname
    simp only [List.mem_map] at hname
    obtain ⟨m, hmtake, rfl⟩ := hname
    have hmsorted : m ∈ (eligibleAspects (aggregateAspects
        (collectEbayItems g))).insertionSort aspectLe :=
      (List.take_sublist 3 _).mem hmtake
    have hmelig : m ∈ eligibleAspects (aggregateAspects
        (collectEbayItems g)) := (List.mem_insertionSort aspectLe).mp hmsorted
    obtain ⟨hmm, hcard, hlen, hval, hdeny⟩ := mem_eligibleAspects hmelig
    exact ⟨m, hmm, rfl, hcard, hval, hlen, hdeny, (hinv.1 m hmm).1⟩
  · intro hlen m hm
    rw [hoo, optionNamesOf]
    have htake : ((eligibleAspects (aggregateAspects
        (collectEbayItems g))).insertionSort aspectLe).take 3 =
        (eligibleAspects (aggregateAspects
          (collectEbayItems g))).insertionSort aspectLe := by
      apply List.take_of_length_le
      rw [List.length_insertionSort]
      omega
    rw [htake]
    exact List.mem_map_of_mem _ ((List.mem_insertionSort aspectLe).mpr hm)


/-- Witness for C2: on the concrete two-member group, `Color` (2 distinct
values, first-seen spelling) is selected and the deny-listed `Brand` is not. -/
theorem group_options_ranked_filtered_truncated_witness :
    collectEbayItems c2Group ≠ [] ∧
    ∃ p, mapEbayItemGroup c2Group = Except.ok p ∧
      p.optionsOrder = ["Color"] := by
  obtain ⟨p, hok, hoo, -, -, -, -, -, -, -⟩ :=
    group_options_ranked_filtered_truncated c2Group (by decide)
  refine ⟨by decide, p, hok, ?_⟩
  rw [hoo]
  decide
